import Mathlib

/-!
Verification of the SolSage knowledge-staking program.

The repository contains two parallel implementations of the same state
machine: a low-level one (`src/programs/solsage/src/lib.rs`, functions
`process_initialize`, `process_stake_knowledge`, `process_record_attribution`,
`process_claim_rewards`) and a framework-assisted one
(`src/solpg_lib.rs`, Anchor module `solsage`).  Both are embedded below over a
shared data model of typed on-chain records.

Modelling conventions:
* Program-derived addresses are deterministic, collision-free functions of
  their seeds and never coincide with wallet keys (host guarantee); each
  derivation is a constructor of `Addr`.
* 32-byte hashes are opaque seed material, modelled as `Nat`.
* u64 arithmetic is checked: Solana/Anchor release profiles build with
  overflow checks enabled, so an overflowing `+` or `*` panics and aborts the
  instruction; this is modelled by `addU64`/`mulU64` returning `none`, which
  the processors surface as an error.
* Account storage is a typed association list; a borsh `try_from_slice` of an
  account holding a record of a different type (or no record) fails, since
  record sizes differ and borsh requires exact consumption.
* Every instruction is atomic (host guarantee): a processor that returns an
  error leaves the chain unchanged, so processors are total functions
  `Chain → Except Err Chain`.
* The derivation bump byte is stored but never read by any program logic, so
  it is modelled as a constant.
* The low-level `is_initialized` flag and the Anchor account discriminator
  both serve only as an initialization marker written at creation; both are
  modelled by the `is_initialized` field.
-/

namespace SolSage

/-- Opaque 32-byte value (content hashes and query hashes). The program uses
these only as address-derivation seeds and stored fields, so they are
modelled abstractly. -/
abbrev Hash32 := Nat

/-- Account addresses.  `wallet` is an ordinary keypair address; the other
constructors are the program-derived addresses used by the program:
the registry PDA from seed tag "protocol", the knowledge-entry PDA from
tag "knowledge" plus staker key plus content hash, and the attribution PDA
from tag "attribution" plus query hash plus the knowledge entry's address. -/
inductive Addr : Type where
  | wallet (k : Nat)
  | protocolPda
  | knowledgePda (staker : Addr) (content_hash : Hash32)
  | attributionPda (query_hash : Hash32) (knowledge_entry : Addr)
deriving DecidableEq

/-- Bump byte of a derived address; opaque to all program logic. -/
def pdaBump : Nat := 255

/-- Number of values of a u64. -/
def u64size : Nat := 2 ^ 64

/-- Checked u64 addition: `none` models the overflow panic that aborts the
instruction in a build with overflow checks. -/
def addU64 (a b : Nat) : Option Nat :=
  if a + b < u64size then some (a + b) else none

/-- Checked u64 multiplication, as `addU64`. -/
def mulU64 (a b : Nat) : Option Nat :=
  if a * b < u64size then some (a * b) else none

/-- The protocol registry record (struct `Protocol` in both sources). -/
structure Protocol where
  is_initialized : Bool
  authority : Addr
  total_knowledge_entries : Nat
  total_attributions : Nat
  reward_per_attribution : Nat
  bump : Nat
deriving DecidableEq

/-- A knowledge entry record (struct `KnowledgeEntry` in both sources). -/
structure KnowledgeEntry where
  is_initialized : Bool
  staker : Addr
  content_hash : Hash32
  title : String
  category : String
  created_at : Int
  total_attributions : Nat
  pending_rewards : Nat
  is_active : Bool
  bump : Nat
deriving DecidableEq

/-- An attribution record (struct `Attribution` in both sources). -/
structure Attribution where
  is_initialized : Bool
  knowledge_entry : Addr
  query_hash : Hash32
  relevance_score : Nat
  timestamp : Int
  reward_claimed : Bool
  bump : Nat
deriving DecidableEq

/-- A typed record stored in an account. -/
inductive Record : Type where
  | protocolRec (p : Protocol)
  | entryRec (e : KnowledgeEntry)
  | attributionRec (a : Attribution)
deriving DecidableEq

/-- Errors of either implementation, plus the host conditions both rely on:
`accountAlreadyInUse` is the system error for creating an account that
exists, `parseFailed` is a failed record deserialization, `overflow` is the
abort of checked u64 arithmetic, `constraintSeeds` is the framework's
derived-address-mismatch error (the low-level version uses `invalidPda`). -/
inductive Err : Type where
  | missingSignature
  | titleTooLong
  | categoryTooLong
  | invalidRelevanceScore
  | noRewardsToClaim
  | notKnowledgeOwner
  | invalidPda
  | constraintSeeds
  | accountAlreadyInUse
  | parseFailed
  | overflow
deriving DecidableEq

/-- On-chain account storage owned by this program. -/
abbrev Chain := List (Addr × Record)

/-- Read the record stored at an address. -/
def getAcc : Chain → Addr → Option Record
  | [], _ => none
  | (b, r) :: rest, a => if a = b then some r else getAcc rest a

/-- Write the record stored at an address. -/
def setAcc : Chain → Addr → Record → Chain
  | [], a, r => [(a, r)]
  | (b, r0) :: rest, a, r =>
      if a = b then (a, r) :: rest else (b, r0) :: setAcc rest a r

/-- Result of an invocation: the new chain on success, the unchanged input
chain on failure (host atomicity). -/
def outChain (st : Chain) : Except Err Chain → Chain
  | .ok st' => st'
  | .error _ => st

/-- Result of a ClaimRewards invocation: new chain and logged claim amount on
success. -/
def claimOut (st : Chain) : Except Err (Chain × Nat) → Chain × Nat
  | .ok r => r
  | .error _ => (st, 0)

/-- Source: `fn process_initialize` in `src/programs/solsage/src/lib.rs`
(name shortened).  Checks the authority signature, checks the supplied
registry address against the derived registry PDA, creates the account
(failing if it exists) and writes the fresh registry record with zero
counters and the fixed reward rate of 1,000,000. -/
def process_init (st : Chain) (authority : Addr) (authority_signed : Bool)
    (protocolAddr : Addr) : Except Err Chain :=
  if authority_signed = false then .error .missingSignature
  else if protocolAddr ≠ Addr.protocolPda then .error .invalidPda
  else match getAcc st protocolAddr with
    | some _ => .error .accountAlreadyInUse
    | none => .ok (setAcc st protocolAddr
        (.protocolRec ⟨true, authority, 0, 0, 1000000, pdaBump⟩))

/-- Source: `fn process_stake_knowledge` in
`src/programs/solsage/src/lib.rs`.  Checks, in source order: staker
signature, title byte length at most 100, category byte length at most 50,
supplied entry address equals the PDA derived from (staker, content hash);
then creates the entry account (failing if it exists), writes the entry,
and finally re-reads the registry from the supplied registry address
(succeeding only if a registry record parses there) and increments its
`total_knowledge_entries`. -/
def process_stake_knowledge (st : Chain) (staker : Addr) (staker_signed : Bool)
    (protocolAddr knowledgeAddr : Addr) (content_hash : Hash32)
    (title category : String) (now : Int) : Except Err Chain :=
  if staker_signed = false then .error .missingSignature
  else if 100 < title.utf8ByteSize then .error .titleTooLong
  else if 50 < category.utf8ByteSize then .error .categoryTooLong
  else if knowledgeAddr ≠ Addr.knowledgePda staker content_hash then
    .error .invalidPda
  else match getAcc st knowledgeAddr with
    | some _ => .error .accountAlreadyInUse
    | none =>
      let st1 := setAcc st knowledgeAddr
        (.entryRec ⟨true, staker, content_hash, title, category, now, 0, 0,
          true, pdaBump⟩)
      match getAcc st1 protocolAddr with
      | some (.protocolRec p) =>
        match addU64 p.total_knowledge_entries 1 with
        | some n => .ok (setAcc st1 protocolAddr
            (.protocolRec { p with total_knowledge_entries := n }))
        | none => .error .overflow
      | _ => .error .parseFailed

/-- Source: `fn process_record_attribution` in
`src/programs/solsage/src/lib.rs`.  Checks, in source order: payer
signature, relevance score at most 100, supplied attribution address equals
the PDA derived from (query hash, supplied knowledge-entry address); creates
the attribution account (failing if it exists); parses the knowledge entry
from the supplied entry address and increments its attribution counter;
parses the registry, computes `reward = reward_per_attribution *
relevance_score / 10` and adds it to the entry's pending rewards; writes the
entry, writes the attribution record, then re-reads the registry and
increments its `total_attributions`.  The knowledge-entry address itself is
never compared against any derivation. -/
def process_record_attribution (st : Chain) (payer : Addr)
    (payer_signed : Bool) (protocolAddr knowledgeAddr attributionAddr : Addr)
    (query_hash : Hash32) (relevance_score : Nat) (now : Int) :
    Except Err Chain :=
  if payer_signed = false then .error .missingSignature
  else if 100 < relevance_score then .error .invalidRelevanceScore
  else if attributionAddr ≠ Addr.attributionPda query_hash knowledgeAddr then
    .error .invalidPda
  else match getAcc st attributionAddr with
    | some _ => .error .accountAlreadyInUse
    | none =>
      match getAcc st knowledgeAddr with
      | some (.entryRec e) =>
        match addU64 e.total_attributions 1 with
        | none => .error .overflow
        | some ta =>
          match getAcc st protocolAddr with
          | some (.protocolRec p) =>
            match mulU64 p.reward_per_attribution relevance_score with
            | none => .error .overflow
            | some prod =>
              match addU64 e.pending_rewards (prod / 10) with
              | none => .error .overflow
              | some pr =>
                let st1 := setAcc st knowledgeAddr
                  (.entryRec
                    { e with total_attributions := ta, pending_rewards := pr })
                let st2 := setAcc st1 attributionAddr
                  (.attributionRec ⟨true, knowledgeAddr, query_hash,
                    relevance_score, now, false, pdaBump⟩)
                match getAcc st2 protocolAddr with
                | some (.protocolRec p2) =>
                  match addU64 p2.total_attributions 1 with
                  | none => .error .overflow
                  | some ta2 => .ok (setAcc st2 protocolAddr
                      (.protocolRec { p2 with total_attributions := ta2 }))
                | _ => .error .parseFailed
          | _ => .error .parseFailed
      | _ => .error .parseFailed

/-- Source: `fn process_claim_rewards` in
`src/programs/solsage/src/lib.rs`.  Checks the staker signature, parses the
knowledge entry from the caller-supplied address (no derivation check), then
checks in source order: the signer equals the entry's `staker` field
(`NotKnowledgeOwner` otherwise), and the pending rewards are nonzero
(`NoRewardsToClaim` otherwise); on success zeroes the pending rewards and
logs the claimed amount, which is returned alongside the new chain. -/
def process_claim_rewards (st : Chain) (staker : Addr) (staker_signed : Bool)
    (knowledgeAddr : Addr) : Except Err (Chain × Nat) :=
  if staker_signed = false then .error .missingSignature
  else match getAcc st knowledgeAddr with
    | some (.entryRec e) =>
      if e.staker ≠ staker then .error .notKnowledgeOwner
      else if e.pending_rewards = 0 then .error .noRewardsToClaim
      else .ok (setAcc st knowledgeAddr
          (.entryRec { e with pending_rewards := 0 }), e.pending_rewards)
    | _ => .error .parseFailed

namespace solsage

/-!
The framework-assisted implementation: Anchor module `solsage` in
`src/solpg_lib.rs`.  Anchor validates the accounts declared in the
`#[derive(Accounts)]` struct before running the handler body: account data
is deserialized and `Signer` checked while the account list is taken apart
in declaration order, then each account's constraints (`seeds`, `bump`,
`init`) run in declaration order, and only then does the handler body run.
The handler bodies below follow `src/solpg_lib.rs` lines 10-102; the
constraint phases follow the `Initialize`, `StakeKnowledge`,
`RecordAttribution` and `ClaimRewards` structs of the same file.  The exact
error reported when several constraints fail at once is framework-internal;
only the phase order (constraints before body) is load-bearing in the
theorems below.
-/

/-- Source: `fn initialize` of module `solsage` in `src/solpg_lib.rs` (name
shortened), together with its `Initialize` accounts struct: the registry
account is `init` with seed tag "protocol" and payer `authority`, so the
supplied address must equal the registry PDA and the account must not exist,
and `authority` must sign.  The body writes the fresh registry with zero
counters and reward rate 1,000,000. -/
def init (st : Chain) (authority : Addr) (authority_signed : Bool)
    (protocolAddr : Addr) : Except Err Chain :=
  if authority_signed = false then .error .missingSignature
  else if protocolAddr ≠ Addr.protocolPda then .error .constraintSeeds
  else match getAcc st protocolAddr with
    | some _ => .error .accountAlreadyInUse
    | none => .ok (setAcc st protocolAddr
        (.protocolRec ⟨true, authority, 0, 0, 1000000, pdaBump⟩))

/-- Source: `fn stake_knowledge` of module `solsage` in `src/solpg_lib.rs`,
together with its `StakeKnowledge` accounts struct: the registry account is
deserialized and checked against the "protocol" seeds, the entry account is
`init` with seeds (tag, staker, content hash) and payer `staker`, and
`staker` must sign — all before the body, which checks the title and
category lengths and then writes the entry and increments the registry's
`total_knowledge_entries`. -/
def stake_knowledge (st : Chain) (staker : Addr) (staker_signed : Bool)
    (protocolAddr knowledgeAddr : Addr) (content_hash : Hash32)
    (title category : String) (now : Int) : Except Err Chain :=
  match getAcc st protocolAddr with
  | some (.protocolRec p) =>
    if staker_signed = false then .error .missingSignature
    else if protocolAddr ≠ Addr.protocolPda then .error .constraintSeeds
    else if knowledgeAddr ≠ Addr.knowledgePda staker content_hash then
      .error .constraintSeeds
    else match getAcc st knowledgeAddr with
      | some _ => .error .accountAlreadyInUse
      | none =>
        if 100 < title.utf8ByteSize then .error .titleTooLong
        else if 50 < category.utf8ByteSize then .error .categoryTooLong
        else match addU64 p.total_knowledge_entries 1 with
          | none => .error .overflow
          | some n => .ok (setAcc
              (setAcc st knowledgeAddr
                (.entryRec ⟨true, staker, content_hash, title, category, now,
                  0, 0, true, pdaBump⟩))
              protocolAddr
              (.protocolRec { p with total_knowledge_entries := n }))
  | _ => .error .parseFailed

/-- Source: `fn record_attribution` of module `solsage` in
`src/solpg_lib.rs`, together with its `RecordAttribution` accounts struct:
the registry is deserialized and checked against the "protocol" seeds, the
knowledge entry is deserialized from the caller-supplied address with no
seeds constraint, the attribution account is `init` with seeds (tag, query
hash, knowledge entry address), and `payer` must sign — all before the body,
which checks the relevance score, fills the attribution record, increments
the entry's attribution counter, adds `reward_per_attribution *
relevance_score / 10` to the entry's pending rewards, and increments the
registry's `total_attributions`. -/
def record_attribution (st : Chain) (payer : Addr) (payer_signed : Bool)
    (protocolAddr knowledgeAddr attributionAddr : Addr) (query_hash : Hash32)
    (relevance_score : Nat) (now : Int) : Except Err Chain :=
  match getAcc st protocolAddr with
  | some (.protocolRec p) =>
    match getAcc st knowledgeAddr with
    | some (.entryRec e) =>
      if payer_signed = false then .error .missingSignature
      else if protocolAddr ≠ Addr.protocolPda then .error .constraintSeeds
      else if attributionAddr ≠ Addr.attributionPda query_hash knowledgeAddr
        then .error .constraintSeeds
      else match getAcc st attributionAddr with
        | some _ => .error .accountAlreadyInUse
        | none =>
          if 100 < relevance_score then .error .invalidRelevanceScore
          else match addU64 e.total_attributions 1 with
            | none => .error .overflow
            | some ta =>
              match mulU64 p.reward_per_attribution relevance_score with
              | none => .error .overflow
              | some prod =>
                match addU64 e.pending_rewards (prod / 10) with
                | none => .error .overflow
                | some pr =>
                  match addU64 p.total_attributions 1 with
                  | none => .error .overflow
                  | some ta2 => .ok (setAcc
                      (setAcc
                        (setAcc st knowledgeAddr
                          (.entryRec { e with total_attributions := ta,
                                              pending_rewards := pr }))
                        attributionAddr
                        (.attributionRec ⟨true, knowledgeAddr, query_hash,
                          relevance_score, now, false, pdaBump⟩))
                      protocolAddr
                      (.protocolRec { p with total_attributions := ta2 }))
    | _ => .error .parseFailed
  | _ => .error .parseFailed

/-- Source: `fn claim_rewards` of module `solsage` in `src/solpg_lib.rs`,
together with its `ClaimRewards` accounts struct: the knowledge entry is
deserialized from the caller-supplied address (no seeds constraint) and
`staker` must sign; the body then checks, in source order, that the pending
rewards are nonzero (`NoRewardsToClaim` otherwise) and that the signer
equals the entry's `staker` field (`NotKnowledgeOwner` otherwise); on
success it zeroes the pending rewards and logs the claimed amount, which is
returned alongside the new chain. -/
def claim_rewards (st : Chain) (staker : Addr) (staker_signed : Bool)
    (knowledgeAddr : Addr) : Except Err (Chain × Nat) :=
  match getAcc st knowledgeAddr with
  | some (.entryRec e) =>
    if staker_signed = false then .error .missingSignature
    else if e.pending_rewards = 0 then .error .noRewardsToClaim
    else if e.staker ≠ staker then .error .notKnowledgeOwner
    else .ok (setAcc st knowledgeAddr
        (.entryRec { e with pending_rewards := 0 }), e.pending_rewards)
  | _ => .error .parseFailed

end solsage

/-! Basic facts about the storage map, address derivation and checked
arithmetic. -/

theorem getAcc_setAcc_same (st : Chain) (a : Addr) (r : Record) :
    getAcc (setAcc st a r) a = some r := by
  induction st with
  | nil => simp [setAcc, getAcc]
  | cons hd tl ih =>
    obtain ⟨b, r0⟩ := hd
    by_cases h : a = b
    · simp [setAcc, getAcc, h]
    · simp [setAcc, getAcc, h, ih]

theorem getAcc_setAcc_ne (st : Chain) {a b : Addr} (r : Record) (h : b ≠ a) :
    getAcc (setAcc st a r) b = getAcc st b := by
  induction st with
  | nil => simp [setAcc, getAcc, h]
  | cons hd tl ih =>
    obtain ⟨c, r0⟩ := hd
    by_cases h1 : a = c
    · subst h1; simp [setAcc, getAcc, h]
    · by_cases h2 : b = c <;> simp [setAcc, getAcc, h1, h2, ih]

theorem attributionPda_ne (a : Addr) :
    ∀ q, Addr.attributionPda q a ≠ a := by
  induction a with
  | wallet k => intro q h; simp at h
  | protocolPda => intro q h; simp at h
  | knowledgePda s ch ih => intro q h; simp at h
  | attributionPda q0 a0 ih =>
    intro q h
    injection h with h1 h2
    exact ih q0 h2

theorem addU64_some {a b : Nat} (h : a + b < u64size) :
    addU64 a b = some (a + b) := by
  simp [addU64, h]

theorem addU64_some_elim {a b n : Nat} (h : addU64 a b = some n) :
    a + b < u64size ∧ n = a + b := by
  unfold addU64 at h
  by_cases hb : a + b < u64size
  · rw [if_pos hb] at h
    exact ⟨hb, by injection h with h1; omega⟩
  · rw [if_neg hb] at h; simp at h

theorem mulU64_some {a b : Nat} (h : a * b < u64size) :
    mulU64 a b = some (a * b) := by
  simp [mulU64, h]

theorem mulU64_some_elim {a b n : Nat} (h : mulU64 a b = some n) :
    a * b < u64size ∧ n = a * b := by
  unfold mulU64 at h
  by_cases hb : a * b < u64size
  · rw [if_pos hb] at h
    exact ⟨hb, by injection h with h1; omega⟩
  · rw [if_neg hb] at h; simp at h

/-! Success characterizations of the low-level processors: each `ok_elim`
lemma recovers, from a successful run, exactly the validations that must
have passed and the literal resulting chain; each `ok_intro` lemma is the
converse. -/

theorem process_init_ok_elim {st : Chain} {a : Addr} {sg : Bool}
    {pA : Addr} {st' : Chain}
    (h : process_init st a sg pA = .ok st') :
    sg = true ∧ pA = Addr.protocolPda ∧ getAcc st pA = none ∧
      st' = setAcc st pA (.protocolRec ⟨true, a, 0, 0, 1000000, pdaBump⟩) := by
  unfold process_init at h
  by_cases hsg : sg = false
  · rw [if_pos hsg] at h; simp at h
  · rw [if_neg hsg] at h
    by_cases hp : pA = Addr.protocolPda
    · rw [if_neg (not_not_intro hp)] at h
      cases hacc : getAcc st pA with
      | some r => rw [hacc] at h; simp at h
      | none =>
        rw [hacc] at h
        simp only [Except.ok.injEq] at h
        exact ⟨by simpa using hsg, hp, rfl, h.symm⟩
    · rw [if_pos hp] at h; simp at h

theorem process_init_ok_intro (st : Chain) (a : Addr) (pA : Addr)
    (hp : pA = Addr.protocolPda) (hacc : getAcc st pA = none) :
    process_init st a true pA =
      .ok (setAcc st pA (.protocolRec ⟨true, a, 0, 0, 1000000, pdaBump⟩)) := by
  unfold process_init
  rw [if_neg (by simp), if_neg (not_not_intro hp), hacc]

theorem process_stake_ok_elim {st : Chain} {s : Addr} {sg : Bool}
    {pA kA : Addr} {ch : Hash32} {t c : String} {now : Int} {st' : Chain}
    (h : process_stake_knowledge st s sg pA kA ch t c now = .ok st') :
    sg = true ∧ t.utf8ByteSize ≤ 100 ∧ c.utf8ByteSize ≤ 50 ∧
    kA = Addr.knowledgePda s ch ∧ getAcc st kA = none ∧
    ∃ p, getAcc st pA = some (.protocolRec p) ∧ pA ≠ kA ∧
      p.total_knowledge_entries + 1 < u64size ∧
      st' = setAcc
        (setAcc st kA
          (.entryRec ⟨true, s, ch, t, c, now, 0, 0, true, pdaBump⟩)) pA
        (.protocolRec
          { p with total_knowledge_entries :=
              p.total_knowledge_entries + 1 }) := by
  unfold process_stake_knowledge at h
  by_cases hsg : sg = false
  · rw [if_pos hsg] at h; simp at h
  · rw [if_neg hsg] at h
    by_cases ht : 100 < t.utf8ByteSize
    · rw [if_pos ht] at h; simp at h
    · rw [if_neg ht] at h
      by_cases hc : 50 < c.utf8ByteSize
      · rw [if_pos hc] at h; simp at h
      · rw [if_neg hc] at h
        by_cases hk : kA = Addr.knowledgePda s ch
        · rw [if_neg (not_not_intro hk)] at h
          cases hacc : getAcc st kA with
          | some r => rw [hacc] at h; simp at h
          | none =>
            rw [hacc] at h
            simp only [] at h
            cases hp : getAcc
                (setAcc st kA
                  (.entryRec ⟨true, s, ch, t, c, now, 0, 0, true, pdaBump⟩))
                pA with
            | none => rw [hp] at h; simp at h
            | some r =>
              rw [hp] at h
              cases r with
              | protocolRec p =>
                simp only [] at h
                cases hadd : addU64 p.total_knowledge_entries 1 with
                | none => rw [hadd] at h; simp at h
                | some n =>
                  rw [hadd] at h
                  simp only [Except.ok.injEq] at h
                  obtain ⟨hbound, hn⟩ := addU64_some_elim hadd
                  have hpk : pA ≠ kA := by
                    intro he
                    rw [he, getAcc_setAcc_same] at hp
                    simp at hp
                  refine ⟨by simpa using hsg, by omega, by omega, hk, rfl,
                    p, ?_, hpk, hbound, ?_⟩
                  · rw [getAcc_setAcc_ne _ _ hpk] at hp
                    exact hp
                  · rw [← h, hn]
              | entryRec e => simp at h
              | attributionRec a0 => simp at h
        · rw [if_pos hk] at h; simp at h

theorem process_stake_ok_intro (st : Chain) (s : Addr) (pA : Addr)
    (ch : Hash32) (t c : String) (now : Int) (p : Protocol)
    (ht : t.utf8ByteSize ≤ 100) (hc : c.utf8ByteSize ≤ 50)
    (hacc : getAcc st (Addr.knowledgePda s ch) = none)
    (hp : getAcc st pA = some (.protocolRec p))
    (hb : p.total_knowledge_entries + 1 < u64size) :
    process_stake_knowledge st s true pA (Addr.knowledgePda s ch) ch t c now =
      .ok (setAcc
        (setAcc st (Addr.knowledgePda s ch)
          (.entryRec ⟨true, s, ch, t, c, now, 0, 0, true, pdaBump⟩)) pA
        (.protocolRec
          { p with total_knowledge_entries :=
              p.total_knowledge_entries + 1 })) := by
  have hpk : pA ≠ Addr.knowledgePda s ch := by
    intro he; rw [← he, hp] at hacc; simp at hacc
  unfold process_stake_knowledge
  rw [if_neg (by simp), if_neg (by omega), if_neg (by omega),
    if_neg (not_not_intro rfl), hacc]
  simp only []
  rw [getAcc_setAcc_ne _ _ hpk, hp]
  simp only []
  rw [addU64_some hb]

theorem process_record_ok_elim {st : Chain} {py : Addr} {sg : Bool}
    {pA kA aA : Addr} {q : Hash32} {r : Nat} {now : Int} {st' : Chain}
    (h : process_record_attribution st py sg pA kA aA q r now = .ok st') :
    sg = true ∧ r ≤ 100 ∧ aA = Addr.attributionPda q kA ∧
    getAcc st aA = none ∧
    ∃ e p, getAcc st kA = some (.entryRec e) ∧
      getAcc st pA = some (.protocolRec p) ∧
      pA ≠ kA ∧ pA ≠ aA ∧ kA ≠ aA ∧
      e.total_attributions + 1 < u64size ∧
      p.reward_per_attribution * r < u64size ∧
      e.pending_rewards + p.reward_per_attribution * r / 10 < u64size ∧
      p.total_attributions + 1 < u64size ∧
      st' = setAcc
        (setAcc
          (setAcc st kA
            (.entryRec { e with
              total_attributions := e.total_attributions + 1,
              pending_rewards :=
                e.pending_rewards + p.reward_per_attribution * r / 10 })) aA
          (.attributionRec ⟨true, kA, q, r, now, false, pdaBump⟩)) pA
        (.protocolRec
          { p with total_attributions := p.total_attributions + 1 }) := by
  unfold process_record_attribution at h
  by_cases hsg : sg = false
  · rw [if_pos hsg] at h; simp at h
  · rw [if_neg hsg] at h
    by_cases hr : 100 < r
    · rw [if_pos hr] at h; simp at h
    · rw [if_neg hr] at h
      by_cases ha : aA = Addr.attributionPda q kA
      · rw [if_neg (not_not_intro ha)] at h
        cases hattr : getAcc st aA with
        | some r0 => rw [hattr] at h; simp at h
        | none =>
          rw [hattr] at h
          simp only [] at h
          cases hk : getAcc st kA with
          | none => rw [hk] at h; simp at h
          | some rec0 =>
            rw [hk] at h
            cases rec0 with
            | protocolRec p0 => simp at h
            | attributionRec a0 => simp at h
            | entryRec e =>
              simp only [] at h
              cases hadd1 : addU64 e.total_attributions 1 with
              | none => rw [hadd1] at h; simp at h
              | some ta =>
                rw [hadd1] at h
                simp only [] at h
                obtain ⟨hb1, hta1⟩ := addU64_some_elim hadd1
                cases hp : getAcc st pA with
                | none => rw [hp] at h; simp at h
                | some rec1 =>
                  rw [hp] at h
                  cases rec1 with
                  | entryRec e0 => simp at h
                  | attributionRec a0 => simp at h
                  | protocolRec p =>
                    simp only [] at h
                    cases hmul : mulU64 p.reward_per_attribution r with
                    | none => rw [hmul] at h; simp at h
                    | some prod =>
                      rw [hmul] at h
                      simp only [] at h
                      obtain ⟨hb2, hprod⟩ := mulU64_some_elim hmul
                      cases hadd2 : addU64 e.pending_rewards (prod / 10) with
                      | none => rw [hadd2] at h; simp at h
                      | some pr =>
                        rw [hadd2] at h
                        simp only [] at h
                        obtain ⟨hb3, hpr⟩ := addU64_some_elim hadd2
                        have hpk : pA ≠ kA := by
                          intro he; rw [he, hk] at hp; simp at hp
                        have hpa : pA ≠ aA := by
                          intro he; rw [he, hattr] at hp; simp at hp
                        have hka : kA ≠ aA := by
                          intro he; rw [he, hattr] at hk; simp at hk
                        have hp2 : getAcc
                            (setAcc
                              (setAcc st kA
                                (.entryRec
                                  { e with total_attributions := ta, pending_rewards := pr }))
                              aA
                              (.attributionRec ⟨true, kA, q, r, now, false,
                                pdaBump⟩)) pA = some (.protocolRec p) := by
                          rw [getAcc_setAcc_ne _ _ hpa,
                            getAcc_setAcc_ne _ _ hpk]
                          exact hp
                        rw [hp2] at h
                        simp only [] at h
                        cases hadd3 : addU64 p.total_attributions 1 with
                        | none => rw [hadd3] at h; simp at h
                        | some ta2 =>
                          rw [hadd3] at h
                          simp only [Except.ok.injEq] at h
                          obtain ⟨hb4, hta2⟩ := addU64_some_elim hadd3
                          subst hta1
                          subst hprod
                          subst hpr
                          subst hta2
                          exact ⟨by simpa using hsg, by omega, ha, rfl,
                            e, p, rfl, rfl, hpk, hpa, hka, hb1, hb2, hb3, hb4,
                            h.symm⟩
      · rw [if_pos ha] at h; simp at h

theorem process_record_ok_intro (st : Chain) (py : Addr) (pA kA : Addr)
    (q : Hash32) (r : Nat) (now : Int) (e : KnowledgeEntry) (p : Protocol)
    (hr : r ≤ 100)
    (hattr : getAcc st (Addr.attributionPda q kA) = none)
    (hk : getAcc st kA = some (.entryRec e))
    (hp : getAcc st pA = some (.protocolRec p))
    (hb1 : e.total_attributions + 1 < u64size)
    (hb2 : p.reward_per_attribution * r < u64size)
    (hb3 : e.pending_rewards + p.reward_per_attribution * r / 10 < u64size)
    (hb4 : p.total_attributions + 1 < u64size) :
    process_record_attribution st py true pA kA
        (Addr.attributionPda q kA) q r now =
      .ok (setAcc
        (setAcc
          (setAcc st kA
            (.entryRec { e with
              total_attributions := e.total_attributions + 1,
              pending_rewards :=
                e.pending_rewards + p.reward_per_attribution * r / 10 }))
          (Addr.attributionPda q kA)
          (.attributionRec ⟨true, kA, q, r, now, false, pdaBump⟩)) pA
        (.protocolRec
          { p with total_attributions := p.total_attributions + 1 })) := by
  have hpk : pA ≠ kA := by
    intro he; rw [he, hk] at hp; simp at hp
  have hpa : pA ≠ Addr.attributionPda q kA := by
    intro he; rw [he, hattr] at hp; simp at hp
  unfold process_record_attribution
  rw [if_neg (by simp), if_neg (by omega), if_neg (not_not_intro rfl), hattr]
  simp only []
  rw [hk]
  simp only []
  rw [addU64_some hb1]
  simp only []
  rw [hp]
  simp only []
  rw [mulU64_some hb2]
  simp only []
  rw [addU64_some hb3]
  simp only []
  rw [getAcc_setAcc_ne _ _ hpa, getAcc_setAcc_ne _ _ hpk, hp]
  simp only []
  rw [addU64_some hb4]

theorem process_claim_ok_elim {st : Chain} {s : Addr} {sg : Bool}
    {kA : Addr} {res : Chain × Nat}
    (h : process_claim_rewards st s sg kA = .ok res) :
    sg = true ∧ ∃ e, getAcc st kA = some (.entryRec e) ∧ e.staker = s ∧
      e.pending_rewards ≠ 0 ∧
      res = (setAcc st kA (.entryRec { e with pending_rewards := 0 }),
        e.pending_rewards) := by
  unfold process_claim_rewards at h
  by_cases hsg : sg = false
  · rw [if_pos hsg] at h; simp at h
  · rw [if_neg hsg] at h
    cases hk : getAcc st kA with
    | none => rw [hk] at h; simp at h
    | some rec0 =>
      rw [hk] at h
      cases rec0 with
      | protocolRec p => simp at h
      | attributionRec a0 => simp at h
      | entryRec e =>
        simp only [] at h
        by_cases hs : e.staker = s
        · rw [if_neg (not_not_intro hs)] at h
          by_cases hz : e.pending_rewards = 0
          · rw [if_pos hz] at h; simp at h
          · rw [if_neg hz] at h
            simp only [Except.ok.injEq] at h
            exact ⟨by simpa using hsg, e, rfl, hs, hz, h.symm⟩
        · rw [if_pos hs] at h; simp at h

theorem process_claim_ok_intro (st : Chain) (kA : Addr) (e : KnowledgeEntry)
    (hk : getAcc st kA = some (.entryRec e))
    (hz : e.pending_rewards ≠ 0) :
    process_claim_rewards st e.staker true kA =
      .ok (setAcc st kA (.entryRec { e with pending_rewards := 0 }),
        e.pending_rewards) := by
  unfold process_claim_rewards
  rw [if_neg (by simp), hk]
  simp only []
  rw [if_neg (not_not_intro rfl), if_neg hz]

/-! Success characterizations of the framework-assisted processors. -/

theorem solsage_init_ok_elim {st : Chain} {a : Addr} {sg : Bool}
    {pA : Addr} {st' : Chain}
    (h : solsage.init st a sg pA = .ok st') :
    sg = true ∧ pA = Addr.protocolPda ∧ getAcc st pA = none ∧
      st' = setAcc st pA (.protocolRec ⟨true, a, 0, 0, 1000000, pdaBump⟩) := by
  unfold solsage.init at h
  by_cases hsg : sg = false
  · rw [if_pos hsg] at h; simp at h
  · rw [if_neg hsg] at h
    by_cases hp : pA = Addr.protocolPda
    · rw [if_neg (not_not_intro hp)] at h
      cases hacc : getAcc st pA with
      | some r => rw [hacc] at h; simp at h
      | none =>
        rw [hacc] at h
        simp only [Except.ok.injEq] at h
        exact ⟨by simpa using hsg, hp, rfl, h.symm⟩
    · rw [if_pos hp] at h; simp at h

theorem solsage_init_ok_intro (st : Chain) (a : Addr) (pA : Addr)
    (hp : pA = Addr.protocolPda) (hacc : getAcc st pA = none) :
    solsage.init st a true pA =
      .ok (setAcc st pA (.protocolRec ⟨true, a, 0, 0, 1000000, pdaBump⟩)) := by
  unfold solsage.init
  rw [if_neg (by simp), if_neg (not_not_intro hp), hacc]

theorem solsage_stake_ok_elim {st : Chain} {s : Addr} {sg : Bool}
    {pA kA : Addr} {ch : Hash32} {t c : String} {now : Int} {st' : Chain}
    (h : solsage.stake_knowledge st s sg pA kA ch t c now = .ok st') :
    sg = true ∧ pA = Addr.protocolPda ∧ kA = Addr.knowledgePda s ch ∧
    getAcc st kA = none ∧ t.utf8ByteSize ≤ 100 ∧ c.utf8ByteSize ≤ 50 ∧
    ∃ p, getAcc st pA = some (.protocolRec p) ∧
      p.total_knowledge_entries + 1 < u64size ∧
      st' = setAcc
        (setAcc st kA
          (.entryRec ⟨true, s, ch, t, c, now, 0, 0, true, pdaBump⟩)) pA
        (.protocolRec
          { p with total_knowledge_entries :=
              p.total_knowledge_entries + 1 }) := by
  unfold solsage.stake_knowledge at h
  cases hp : getAcc st pA with
  | none => rw [hp] at h; simp at h
  | some rec0 =>
    rw [hp] at h
    cases rec0 with
    | entryRec e0 => simp at h
    | attributionRec a0 => simp at h
    | protocolRec p =>
      simp only [] at h
      by_cases hsg : sg = false
      · rw [if_pos hsg] at h; simp at h
      · rw [if_neg hsg] at h
        by_cases hpp : pA = Addr.protocolPda
        · rw [if_neg (not_not_intro hpp)] at h
          by_cases hk : kA = Addr.knowledgePda s ch
          · rw [if_neg (not_not_intro hk)] at h
            cases hacc : getAcc st kA with
            | some r0 => rw [hacc] at h; simp at h
            | none =>
              rw [hacc] at h
              simp only [] at h
              by_cases ht : 100 < t.utf8ByteSize
              · rw [if_pos ht] at h; simp at h
              · rw [if_neg ht] at h
                by_cases hc : 50 < c.utf8ByteSize
                · rw [if_pos hc] at h; simp at h
                · rw [if_neg hc] at h
                  cases hadd : addU64 p.total_knowledge_entries 1 with
                  | none => rw [hadd] at h; simp at h
                  | some n =>
                    rw [hadd] at h
                    simp only [Except.ok.injEq] at h
                    obtain ⟨hb, hn⟩ := addU64_some_elim hadd
                    subst hn
                    exact ⟨by simpa using hsg, hpp, hk, rfl, by omega,
                      by omega, p, rfl, hb, h.symm⟩
          · rw [if_pos hk] at h; simp at h
        · rw [if_pos hpp] at h; simp at h

theorem solsage_stake_ok_intro (st : Chain) (s : Addr) (ch : Hash32)
    (t c : String) (now : Int) (p : Protocol)
    (ht : t.utf8ByteSize ≤ 100) (hc : c.utf8ByteSize ≤ 50)
    (hacc : getAcc st (Addr.knowledgePda s ch) = none)
    (hp : getAcc st Addr.protocolPda = some (.protocolRec p))
    (hb : p.total_knowledge_entries + 1 < u64size) :
    solsage.stake_knowledge st s true Addr.protocolPda
        (Addr.knowledgePda s ch) ch t c now =
      .ok (setAcc
        (setAcc st (Addr.knowledgePda s ch)
          (.entryRec ⟨true, s, ch, t, c, now, 0, 0, true, pdaBump⟩))
        Addr.protocolPda
        (.protocolRec
          { p with total_knowledge_entries :=
              p.total_knowledge_entries + 1 })) := by
  unfold solsage.stake_knowledge
  rw [hp]
  simp only []
  rw [if_neg (by simp), if_neg (not_not_intro rfl),
    if_neg (not_not_intro rfl), hacc]
  simp only []
  rw [if_neg (by omega), if_neg (by omega), addU64_some hb]

theorem solsage_record_ok_elim {st : Chain} {py : Addr} {sg : Bool}
    {pA kA aA : Addr} {q : Hash32} {r : Nat} {now : Int} {st' : Chain}
    (h : solsage.record_attribution st py sg pA kA aA q r now = .ok st') :
    sg = true ∧ pA = Addr.protocolPda ∧ r ≤ 100 ∧
    aA = Addr.attributionPda q kA ∧ getAcc st aA = none ∧
    ∃ e p, getAcc st kA = some (.entryRec e) ∧
      getAcc st pA = some (.protocolRec p) ∧
      pA ≠ kA ∧ pA ≠ aA ∧ kA ≠ aA ∧
      e.total_attributions + 1 < u64size ∧
      p.reward_per_attribution * r < u64size ∧
      e.pending_rewards + p.reward_per_attribution * r / 10 < u64size ∧
      p.total_attributions + 1 < u64size ∧
      st' = setAcc
        (setAcc
          (setAcc st kA
            (.entryRec { e with
              total_attributions := e.total_attributions + 1,
              pending_rewards :=
                e.pending_rewards + p.reward_per_attribution * r / 10 })) aA
          (.attributionRec ⟨true, kA, q, r, now, false, pdaBump⟩)) pA
        (.protocolRec
          { p with total_attributions := p.total_attributions + 1 }) := by
  unfold solsage.record_attribution at h
  cases hp : getAcc st pA with
  | none => rw [hp] at h; simp at h
  | some rec0 =>
    rw [hp] at h
    cases rec0 with
    | entryRec e0 => simp at h
    | attributionRec a0 => simp at h
    | protocolRec p =>
      simp only [] at h
      cases hk : getAcc st kA with
      | none => rw [hk] at h; simp at h
      | some rec1 =>
        rw [hk] at h
        cases rec1 with
        | protocolRec p0 => simp at h
        | attributionRec a0 => simp at h
        | entryRec e =>
          simp only [] at h
          by_cases hsg : sg = false
          · rw [if_pos hsg] at h; simp at h
          · rw [if_neg hsg] at h
            by_cases hpp : pA = Addr.protocolPda
            · rw [if_neg (not_not_intro hpp)] at h
              by_cases ha : aA = Addr.attributionPda q kA
              · rw [if_neg (not_not_intro ha)] at h
                cases hattr : getAcc st aA with
                | some r0 => rw [hattr] at h; simp at h
                | none =>
                  rw [hattr] at h
                  simp only [] at h
                  by_cases hr : 100 < r
                  · rw [if_pos hr] at h; simp at h
                  · rw [if_neg hr] at h
                    cases hadd1 : addU64 e.total_attributions 1 with
                    | none => rw [hadd1] at h; simp at h
                    | some ta =>
                      rw [hadd1] at h
                      simp only [] at h
                      obtain ⟨hb1, hta1⟩ := addU64_some_elim hadd1
                      cases hmul : mulU64 p.reward_per_attribution r with
                      | none => rw [hmul] at h; simp at h
                      | some prod =>
                        rw [hmul] at h
                        simp only [] at h
                        obtain ⟨hb2, hprod⟩ := mulU64_some_elim hmul
                        cases hadd2 : addU64 e.pending_rewards (prod / 10)
                          with
                        | none => rw [hadd2] at h; simp at h
                        | some pr =>
                          rw [hadd2] at h
                          simp only [] at h
                          obtain ⟨hb3, hpr⟩ := addU64_some_elim hadd2
                          cases hadd3 : addU64 p.total_attributions 1 with
                          | none => rw [hadd3] at h; simp at h
                          | some ta2 =>
                            rw [hadd3] at h
                            simp only [Except.ok.injEq] at h
                            obtain ⟨hb4, hta2⟩ := addU64_some_elim hadd3
                            have hpk : pA ≠ kA := by
                              intro he; rw [he, hk] at hp; simp at hp
                            have hpa : pA ≠ aA := by
                              intro he; rw [he, hattr] at hp; simp at hp
                            have hka : kA ≠ aA := by
                              intro he; rw [he, hattr] at hk; simp at hk
                            subst hta1
                            subst hprod
                            subst hpr
                            subst hta2
                            exact ⟨by simpa using hsg, hpp, by omega, ha,
                              rfl, e, p, rfl, rfl, hpk, hpa, hka,
                              hb1, hb2, hb3, hb4, h.symm⟩
              · rw [if_pos ha] at h; simp at h
            · rw [if_pos hpp] at h; simp at h

theorem solsage_record_ok_intro (st : Chain) (py : Addr) (kA : Addr)
    (q : Hash32) (r : Nat) (now : Int) (e : KnowledgeEntry) (p : Protocol)
    (hr : r ≤ 100)
    (hattr : getAcc st (Addr.attributionPda q kA) = none)
    (hk : getAcc st kA = some (.entryRec e))
    (hp : getAcc st Addr.protocolPda = some (.protocolRec p))
    (hb1 : e.total_attributions + 1 < u64size)
    (hb2 : p.reward_per_attribution * r < u64size)
    (hb3 : e.pending_rewards + p.reward_per_attribution * r / 10 < u64size)
    (hb4 : p.total_attributions + 1 < u64size) :
    solsage.record_attribution st py true Addr.protocolPda kA
        (Addr.attributionPda q kA) q r now =
      .ok (setAcc
        (setAcc
          (setAcc st kA
            (.entryRec { e with
              total_attributions := e.total_attributions + 1,
              pending_rewards :=
                e.pending_rewards + p.reward_per_attribution * r / 10 }))
          (Addr.attributionPda q kA)
          (.attributionRec ⟨true, kA, q, r, now, false, pdaBump⟩))
        Addr.protocolPda
        (.protocolRec
          { p with total_attributions := p.total_attributions + 1 })) := by
  unfold solsage.record_attribution
  rw [hp]
  simp only []
  rw [hk]
  simp only []
  rw [if_neg (by simp), if_neg (not_not_intro rfl),
    if_neg (not_not_intro rfl), hattr]
  simp only []
  rw [if_neg (by omega), addU64_some hb1]
  simp only []
  rw [mulU64_some hb2]
  simp only []
  rw [addU64_some hb3]
  simp only []
  rw [addU64_some hb4]

theorem solsage_claim_ok_elim {st : Chain} {s : Addr} {sg : Bool}
    {kA : Addr} {res : Chain × Nat}
    (h : solsage.claim_rewards st s sg kA = .ok res) :
    sg = true ∧ ∃ e, getAcc st kA = some (.entryRec e) ∧ e.staker = s ∧
      e.pending_rewards ≠ 0 ∧
      res = (setAcc st kA (.entryRec { e with pending_rewards := 0 }),
        e.pending_rewards) := by
  unfold solsage.claim_rewards at h
  cases hk : getAcc st kA with
  | none => rw [hk] at h; simp at h
  | some rec0 =>
    rw [hk] at h
    cases rec0 with
    | protocolRec p => simp at h
    | attributionRec a0 => simp at h
    | entryRec e =>
      simp only [] at h
      by_cases hsg : sg = false
      · rw [if_pos hsg] at h; simp at h
      · rw [if_neg hsg] at h
        by_cases hz : e.pending_rewards = 0
        · rw [if_pos hz] at h; simp at h
        · rw [if_neg hz] at h
          by_cases hs : e.staker = s
          · rw [if_neg (not_not_intro hs)] at h
            simp only [Except.ok.injEq] at h
            exact ⟨by simpa using hsg, e, rfl, hs, hz, h.symm⟩
          · rw [if_pos hs] at h; simp at h

theorem solsage_claim_ok_intro (st : Chain) (kA : Addr) (e : KnowledgeEntry)
    (hk : getAcc st kA = some (.entryRec e))
    (hz : e.pending_rewards ≠ 0) :
    solsage.claim_rewards st e.staker true kA =
      .ok (setAcc st kA (.entryRec { e with pending_rewards := 0 }),
        e.pending_rewards) := by
  unfold solsage.claim_rewards
  rw [hk]
  simp only []
  rw [if_neg (by simp), if_neg hz, if_neg (not_not_intro rfl)]

/-! Trace semantics: arbitrary sequences of invocations, used for the
registry-counter invariant and for sequences of attributions.  The step
semantics uses the low-level processors; the refinement theorem carries the
results to the framework-assisted ones. -/

/-- Success test for an invocation result. -/
def isOk {α : Type} : Except Err α → Bool
  | .ok _ => true
  | .error _ => false

/-- One invocation of the program, with all caller-supplied data. -/
inductive Op : Type where
  | initOp (authority : Addr) (signed : Bool) (protocolAddr : Addr)
  | stakeOp (staker : Addr) (signed : Bool)
      (protocolAddr knowledgeAddr : Addr) (content_hash : Hash32)
      (title category : String) (now : Int)
  | recordOp (payer : Addr) (signed : Bool)
      (protocolAddr knowledgeAddr attributionAddr : Addr)
      (query_hash : Hash32) (relevance_score : Nat) (now : Int)
  | claimOp (staker : Addr) (signed : Bool) (knowledgeAddr : Addr)
deriving DecidableEq

/-- Dispatch an invocation to its processor (`process_instruction` of the
low-level source). -/
def applyOp (st : Chain) : Op → Except Err Chain
  | .initOp a sg pA => process_init st a sg pA
  | .stakeOp s sg pA kA ch t c now =>
      process_stake_knowledge st s sg pA kA ch t c now
  | .recordOp py sg pA kA aA q r now =>
      process_record_attribution st py sg pA kA aA q r now
  | .claimOp s sg kA => (process_claim_rewards st s sg kA).map Prod.fst

/-- Commit an invocation: a failed invocation leaves the chain unchanged
(host atomicity). -/
def step (st : Chain) (o : Op) : Chain :=
  match applyOp st o with
  | .ok st' => st'
  | .error _ => st

/-- Run a sequence of invocations. -/
def runOps : Chain → List Op → Chain
  | st, [] => st
  | st, o :: rest => runOps (step st o) rest

/-- One if the invocation is a StakeKnowledge that succeeds here, else
zero. -/
def stakeDelta (st : Chain) (o : Op) : Nat :=
  match o with
  | .stakeOp .. => if isOk (applyOp st o) = true then 1 else 0
  | _ => 0

/-- One if the invocation is a RecordAttribution that succeeds here, else
zero. -/
def recDelta (st : Chain) (o : Op) : Nat :=
  match o with
  | .recordOp .. => if isOk (applyOp st o) = true then 1 else 0
  | _ => 0

/-- Number of StakeKnowledge invocations in the sequence that succeed when
the sequence is run from the given chain. -/
def okStakes : Chain → List Op → Nat
  | _, [] => 0
  | st, o :: rest => stakeDelta st o + okStakes (step st o) rest

/-- Number of RecordAttribution invocations in the sequence that succeed
when the sequence is run from the given chain. -/
def okRecords : Chain → List Op → Nat
  | _, [] => 0
  | st, o :: rest => recDelta st o + okRecords (step st o) rest

/-- A registry record is stored only at the derived registry address.  This
holds in every reachable chain. -/
def regAtPda (st : Chain) : Prop :=
  ∀ a p, getAcc st a = some (.protocolRec p) → a = Addr.protocolPda

/-- The derived registry address stores nothing but a registry record. -/
def pdaIsReg (st : Chain) : Prop :=
  ∀ r, getAcc st Addr.protocolPda = some r → ∃ p, r = .protocolRec p

/-- The registry's counters stand at the given values (vacuous counters are
zero while no registry exists). -/
def Counts (st : Chain) (n m : Nat) : Prop :=
  (∀ p, getAcc st Addr.protocolPda = some (.protocolRec p) →
    p.total_knowledge_entries = n ∧ p.total_attributions = m) ∧
  (getAcc st Addr.protocolPda = none → n = 0 ∧ m = 0)

theorem step_of_ok {st : Chain} {o : Op} {st' : Chain}
    (h : applyOp st o = .ok st') : step st o = st' := by
  unfold step; rw [h]

theorem step_of_err {st : Chain} {o : Op} {e : Err}
    (h : applyOp st o = .error e) : step st o = st := by
  unfold step; rw [h]

theorem step_preserves (st : Chain) (o : Op)
    (h1 : regAtPda st) (h2 : pdaIsReg st) :
    (regAtPda (step st o) ∧ pdaIsReg (step st o)) ∧
    ∀ n m, Counts st n m →
      Counts (step st o) (n + stakeDelta st o) (m + recDelta st o) := by
  cases happ : applyOp st o with
  | error e0 =>
    rw [step_of_err happ]
    have hd1 : stakeDelta st o = 0 := by
      cases o <;> simp [stakeDelta, happ, isOk]
    have hd2 : recDelta st o = 0 := by
      cases o <;> simp [recDelta, happ, isOk]
    rw [hd1, hd2]
    exact ⟨⟨h1, h2⟩, fun n m h3 => by simpa using h3⟩
  | ok st' =>
    rw [step_of_ok happ]
    cases o with
    | initOp a sg pA =>
      have hd1 : stakeDelta st (.initOp a sg pA) = 0 := rfl
      have hd2 : recDelta st (.initOp a sg pA) = 0 := rfl
      rw [hd1, hd2]
      unfold applyOp at happ
      obtain ⟨hsg, hpda, hnone, hst'⟩ := process_init_ok_elim happ
      subst hpda
      subst hst'
      refine ⟨⟨?_, ?_⟩, ?_⟩
      · intro x p0 hx
        by_cases hx1 : x = Addr.protocolPda
        · exact hx1
        · rw [getAcc_setAcc_ne _ _ hx1] at hx
          exact h1 x p0 hx
      · intro r hr
        rw [getAcc_setAcc_same] at hr
        exact ⟨_, by simpa using hr.symm⟩
      · intro n m h3
        have hzero := h3.2 hnone
        constructor
        · intro p0 hp0
          rw [getAcc_setAcc_same] at hp0
          simp only [Option.some.injEq, Record.protocolRec.injEq] at hp0
          subst hp0
          simp only []
          omega
        · intro hn
          rw [getAcc_setAcc_same] at hn
          simp at hn
    | stakeOp s sg pA kA ch t c now =>
      simp only [applyOp] at happ
      have hd1 : stakeDelta st (.stakeOp s sg pA kA ch t c now) = 1 := by
        simp [stakeDelta, applyOp, happ, isOk]
      have hd2 : recDelta st (.stakeOp s sg pA kA ch t c now) = 0 := rfl
      rw [hd1, hd2]
      obtain ⟨hsg, ht, hc, hk, hnone, p, hp, hpk, hb, hst'⟩ :=
        process_stake_ok_elim happ
      have hpda : pA = Addr.protocolPda := h1 pA p hp
      subst hpda
      subst hk
      subst hst'
      refine ⟨⟨?_, ?_⟩, ?_⟩
      · intro x p0 hx
        by_cases hx1 : x = Addr.protocolPda
        · exact hx1
        · rw [getAcc_setAcc_ne _ _ hx1] at hx
          by_cases hx2 : x = Addr.knowledgePda s ch
          · subst hx2
            rw [getAcc_setAcc_same] at hx
            simp at hx
          · rw [getAcc_setAcc_ne _ _ hx2] at hx
            exact h1 x p0 hx
      · intro r hr
        rw [getAcc_setAcc_same] at hr
        exact ⟨_, by simpa using hr.symm⟩
      · intro n m h3
        obtain ⟨hn, hm⟩ := h3.1 p hp
        constructor
        · intro p0 hp0
          rw [getAcc_setAcc_same] at hp0
          simp only [Option.some.injEq, Record.protocolRec.injEq] at hp0
          subst hp0
          simp only []
          omega
        · intro hn0
          rw [getAcc_setAcc_same] at hn0
          simp at hn0
    | recordOp py sg pA kA aA q r now =>
      simp only [applyOp] at happ
      have hd1 : stakeDelta st (.recordOp py sg pA kA aA q r now) = 0 := rfl
      have hd2 : recDelta st (.recordOp py sg pA kA aA q r now) = 1 := by
        simp [recDelta, applyOp, happ, isOk]
      rw [hd1, hd2]
      obtain ⟨hsg, hr, ha, hnone, e, p, hk, hp, hpk, hpa, hka, hb1, hb2, hb3,
        hb4, hst'⟩ := process_record_ok_elim happ
      have hpda : pA = Addr.protocolPda := h1 pA p hp
      subst hpda
      subst ha
      subst hst'
      refine ⟨⟨?_, ?_⟩, ?_⟩
      · intro x p0 hx
        by_cases hx1 : x = Addr.protocolPda
        · exact hx1
        · rw [getAcc_setAcc_ne _ _ hx1] at hx
          by_cases hx2 : x = Addr.attributionPda q kA
          · subst hx2
            rw [getAcc_setAcc_same] at hx
            simp at hx
          · rw [getAcc_setAcc_ne _ _ hx2] at hx
            by_cases hx3 : x = kA
            · subst hx3
              rw [getAcc_setAcc_same] at hx
              simp at hx
            · rw [getAcc_setAcc_ne _ _ hx3] at hx
              exact h1 x p0 hx
      · intro r0 hr0
        rw [getAcc_setAcc_same] at hr0
        exact ⟨_, by simpa using hr0.symm⟩
      · intro n m h3
        obtain ⟨hn, hm⟩ := h3.1 p hp
        constructor
        · intro p0 hp0
          rw [getAcc_setAcc_same] at hp0
          simp only [Option.some.injEq, Record.protocolRec.injEq] at hp0
          subst hp0
          simp only []
          omega
        · intro hn0
          rw [getAcc_setAcc_same] at hn0
          simp at hn0
    | claimOp s sg kA =>
      have hd1 : stakeDelta st (.claimOp s sg kA) = 0 := rfl
      have hd2 : recDelta st (.claimOp s sg kA) = 0 := rfl
      rw [hd1, hd2]
      simp only [applyOp] at happ
      cases hres : process_claim_rewards st s sg kA with
      | error e0 => rw [hres] at happ; simp [Except.map] at happ
      | ok res =>
        rw [hres] at happ
        simp only [Except.map, Except.ok.injEq] at happ
        obtain ⟨hsg, e, hk, hs, hz, hres'⟩ := process_claim_ok_elim hres
        subst hres'
        simp only [] at happ
        subst happ
        have hkp : kA ≠ Addr.protocolPda := by
          intro he
          rw [he] at hk
          obtain ⟨p0, hp0⟩ := h2 _ hk
          simp at hp0
        refine ⟨⟨?_, ?_⟩, ?_⟩
        · intro x p0 hx
          by_cases hx1 : x = kA
          · subst hx1
            rw [getAcc_setAcc_same] at hx
            simp at hx
          · rw [getAcc_setAcc_ne _ _ hx1] at hx
            exact h1 x p0 hx
        · intro r hr
          rw [getAcc_setAcc_ne _ _ (Ne.symm hkp)] at hr
          exact h2 r hr
        · intro n m h3
          constructor
          · intro p0 hp0
            rw [getAcc_setAcc_ne _ _ (Ne.symm hkp)] at hp0
            have := h3.1 p0 hp0
            omega
          · intro hn0
            rw [getAcc_setAcc_ne _ _ (Ne.symm hkp)] at hn0
            have := h3.2 hn0
            omega

theorem runOps_inv (ops : List Op) : ∀ (st : Chain), regAtPda st →
    pdaIsReg st → ∀ n m, Counts st n m →
    (regAtPda (runOps st ops) ∧ pdaIsReg (runOps st ops)) ∧
    Counts (runOps st ops) (n + okStakes st ops) (m + okRecords st ops) := by
  induction ops with
  | nil =>
    intro st h1 h2 n m h3
    simpa [runOps, okStakes, okRecords] using ⟨⟨h1, h2⟩, h3⟩
  | cons o rest ih =>
    intro st h1 h2 n m h3
    have hs := step_preserves st o h1 h2
    have hrun := ih (step st o) hs.1.1 hs.1.2 (n + stakeDelta st o)
      (m + recDelta st o) (hs.2 n m h3)
    have e1 : n + okStakes st (o :: rest) =
        n + stakeDelta st o + okStakes (step st o) rest := by
      simp [okStakes]; omega
    have e2 : m + okRecords st (o :: rest) =
        m + recDelta st o + okRecords (step st o) rest := by
      simp [okRecords]; omega
    rw [show runOps st (o :: rest) = runOps (step st o) rest from rfl, e1, e2]
    exact hrun

/-- The caller-supplied data of one RecordAttribution invocation. -/
structure RecordIn where
  payer : Addr
  payer_signed : Bool
  protocolAddr : Addr
  knowledgeAddr : Addr
  attributionAddr : Addr
  query_hash : Hash32
  relevance_score : Nat
  now : Int
deriving DecidableEq

/-- Run a sequence of RecordAttribution invocations, stopping at the first
failure. -/
def runRecords : Chain → List RecordIn → Except Err Chain
  | st, [] => .ok st
  | st, i :: rest =>
    match process_record_attribution st i.payer i.payer_signed i.protocolAddr
      i.knowledgeAddr i.attributionAddr i.query_hash i.relevance_score
      i.now with
    | .ok st' => runRecords st' rest
    | .error e => .error e

theorem runRecords_accumulate (ins : List RecordIn) :
    ∀ (st : Chain) (kA : Addr) (e : KnowledgeEntry) (p : Protocol),
    getAcc st kA = some (.entryRec e) →
    getAcc st Addr.protocolPda = some (.protocolRec p) →
    (∀ i ∈ ins, i.knowledgeAddr = kA ∧ i.protocolAddr = Addr.protocolPda) →
    ∀ stF, runRecords st ins = .ok stF →
    ∃ p', getAcc stF Addr.protocolPda = some (.protocolRec p') ∧
      p'.reward_per_attribution = p.reward_per_attribution ∧
      getAcc stF kA = some (.entryRec { e with
        total_attributions := e.total_attributions + ins.length,
        pending_rewards := e.pending_rewards +
          (ins.map (fun i =>
            p.reward_per_attribution * i.relevance_score / 10)).sum }) := by
  induction ins with
  | nil =>
    intro st kA e p hk hp hin stF hrun
    unfold runRecords at hrun
    simp only [Except.ok.injEq] at hrun
    subst hrun
    refine ⟨p, hp, rfl, ?_⟩
    simpa using hk
  | cons i rest ih =>
    intro st kA e p hk hp hin stF hrun
    unfold runRecords at hrun
    cases hstep : process_record_attribution st i.payer i.payer_signed
        i.protocolAddr i.knowledgeAddr i.attributionAddr i.query_hash
        i.relevance_score i.now with
    | error e0 => rw [hstep] at hrun; simp at hrun
    | ok st1 =>
      rw [hstep] at hrun
      simp only [] at hrun
      obtain ⟨hiK, hiP⟩ := hin i (by simp)
      rw [hiK, hiP] at hstep
      obtain ⟨hsg, hr, ha, hnone, e0, p0, hk0, hp0, hpk, hpa, hka, hb1, hb2,
        hb3, hb4, hst1⟩ := process_record_ok_elim hstep
      rw [hk] at hk0
      rw [hp] at hp0
      simp only [Option.some.injEq, Record.entryRec.injEq] at hk0
      simp only [Option.some.injEq, Record.protocolRec.injEq] at hk0 hp0
      subst hk0
      subst hp0
      have hkpda : kA ≠ Addr.protocolPda := Ne.symm hpk
      have hget1k : getAcc st1 kA = some (.entryRec { e with
          total_attributions := e.total_attributions + 1,
          pending_rewards := e.pending_rewards +
            p.reward_per_attribution * i.relevance_score / 10 }) := by
        rw [hst1, getAcc_setAcc_ne _ _ hkpda, getAcc_setAcc_ne _ _ hka,
          getAcc_setAcc_same]
      have hget1p : getAcc st1 Addr.protocolPda = some (.protocolRec
          { p with total_attributions := p.total_attributions + 1 }) := by
        rw [hst1, getAcc_setAcc_same]
      have hin' : ∀ j ∈ rest, j.knowledgeAddr = kA ∧
          j.protocolAddr = Addr.protocolPda := fun j hj =>
        hin j (by simp [hj])
      obtain ⟨p', hfP, hfR, hfK⟩ := ih st1 kA _ _ hget1k hget1p hin' stF hrun
      refine ⟨p', hfP, by simpa using hfR, ?_⟩
      rw [hfK]
      have hL : e.total_attributions + 1 + rest.length =
          e.total_attributions + (i :: rest).length := by
        simp [List.length]; omega
      have hS : e.pending_rewards +
            p.reward_per_attribution * i.relevance_score / 10 +
            (rest.map (fun j =>
              p.reward_per_attribution * j.relevance_score / 10)).sum =
          e.pending_rewards + ((i :: rest).map (fun j =>
            p.reward_per_attribution * j.relevance_score / 10)).sum := by
        simp [List.map, List.sum_cons]
        omega
      simp only []
      rw [hL, hS]

/-! Concrete fixtures used by the witnesses below: an authority, a staker, an
unrelated caller, one knowledge entry of the staker, and a registry at its
derived address with the fixed reward rate. -/

/-- The protocol authority's wallet. -/
def wAuth : Addr := Addr.wallet 0

/-- The staker's wallet. -/
def wStak : Addr := Addr.wallet 1

/-- A wallet unrelated to the entry. -/
def wOther : Addr := Addr.wallet 2

/-- The derived address of the staker's entry for content hash 5. -/
def kEntryAddr : Addr := Addr.knowledgePda wStak 5

/-- A freshly created knowledge entry (all counters zero). -/
def entry0 : KnowledgeEntry := ⟨true, wStak, 5, "t", "c", 0, 0, 0, true, pdaBump⟩

/-- The same entry with 5,000,000 pending rewards. -/
def entry5 : KnowledgeEntry := { entry0 with pending_rewards := 5000000 }

/-- A registry with one knowledge entry counted and the fixed rate. -/
def reg0 : Protocol := ⟨true, wAuth, 1, 0, 1000000, pdaBump⟩

/-- Chain with the registry at its PDA and a fresh entry. -/
def chainA : Chain := [(Addr.protocolPda, .protocolRec reg0),
  (kEntryAddr, .entryRec entry0)]

/-- Chain with the registry at its PDA and an entry with pending rewards. -/
def chainB : Chain := [(Addr.protocolPda, .protocolRec reg0),
  (kEntryAddr, .entryRec entry5)]

/-- C1: for every relevance score r in [0,100], a successful
RecordAttribution adds exactly floor(reward_per_attribution * r / 10) to the
knowledge entry's pending rewards (exact integer division), in both the
low-level and the framework implementation; with reward_per_attribution =
1,000,000 this gives 10,000,000 at r = 100, 5,000,000 at r = 50 and 0 at
r = 0 (see the witness). -/
theorem C1_record_adds_floor_reward (st : Chain) (py : Addr) (sg : Bool)
    (pA kA aA : Addr) (q : Hash32) (r : Nat) (now : Int)
    (e : KnowledgeEntry) (p : Protocol)
    (hk : getAcc st kA = some (.entryRec e))
    (hp : getAcc st pA = some (.protocolRec p)) :
    (isOk (process_record_attribution st py sg pA kA aA q r now) = true →
      getAcc (outChain st (process_record_attribution st py sg pA kA aA q r
        now)) kA = some (.entryRec { e with
          total_attributions := e.total_attributions + 1,
          pending_rewards := e.pending_rewards +
            p.reward_per_attribution * r / 10 })) ∧
    (isOk (solsage.record_attribution st py sg pA kA aA q r now) = true →
      getAcc (outChain st (solsage.record_attribution st py sg pA kA aA q r
        now)) kA = some (.entryRec { e with
          total_attributions := e.total_attributions + 1,
          pending_rewards := e.pending_rewards +
            p.reward_per_attribution * r / 10 })) := by
  constructor
  · intro hok
    cases hrun : process_record_attribution st py sg pA kA aA q r now with
    | error e0 => rw [hrun] at hok; simp [isOk] at hok
    | ok st' =>
      obtain ⟨hsg, hr, ha, hnone, e1, p1, hk1, hp1, hpk, hpa, hka, hb1, hb2,
        hb3, hb4, hst'⟩ := process_record_ok_elim hrun
      rw [hk] at hk1
      rw [hp] at hp1
      simp only [Option.some.injEq, Record.entryRec.injEq,
        Record.protocolRec.injEq] at hk1 hp1
      subst hk1
      subst hp1
      simp only [outChain]
      rw [hst', getAcc_setAcc_ne _ _ (Ne.symm hpk),
        getAcc_setAcc_ne _ _ hka, getAcc_setAcc_same]
  · intro hok
    cases hrun : solsage.record_attribution st py sg pA kA aA q r now with
    | error e0 => rw [hrun] at hok; simp [isOk] at hok
    | ok st' =>
      obtain ⟨hsg, hpda, hr, ha, hnone, e1, p1, hk1, hp1, hpk, hpa, hka, hb1,
        hb2, hb3, hb4, hst'⟩ := solsage_record_ok_elim hrun
      rw [hk] at hk1
      rw [hp] at hp1
      simp only [Option.some.injEq, Record.entryRec.injEq,
        Record.protocolRec.injEq] at hk1 hp1
      subst hk1
      subst hp1
      simp only [outChain]
      rw [hst', getAcc_setAcc_ne _ _ (Ne.symm hpk),
        getAcc_setAcc_ne _ _ hka, getAcc_setAcc_same]

/-- C1 witness: on a concrete chain with reward rate 1,000,000 and a fresh
entry, a successful attribution with score 100 leaves pending rewards
10,000,000 (both implementations, via the theorem); scores 50 and 0 give
5,000,000 and 0. -/
theorem C1_record_adds_floor_reward_witness :
    (getAcc (outChain chainA (process_record_attribution chainA wOther true
        Addr.protocolPda kEntryAddr (Addr.attributionPda 7 kEntryAddr) 7 100
        0)) kEntryAddr = some (.entryRec { entry0 with
          total_attributions := entry0.total_attributions + 1,
          pending_rewards := entry0.pending_rewards +
            reg0.reward_per_attribution * 100 / 10 })) ∧
    (getAcc (outChain chainA (solsage.record_attribution chainA wOther true
        Addr.protocolPda kEntryAddr (Addr.attributionPda 7 kEntryAddr) 7 100
        0)) kEntryAddr = some (.entryRec { entry0 with
          total_attributions := entry0.total_attributions + 1,
          pending_rewards := entry0.pending_rewards +
            reg0.reward_per_attribution * 100 / 10 })) ∧
    entry0.pending_rewards + reg0.reward_per_attribution * 100 / 10 =
      10000000 ∧
    getAcc (outChain chainA (process_record_attribution chainA wOther true
        Addr.protocolPda kEntryAddr (Addr.attributionPda 7 kEntryAddr) 7 50
        0)) kEntryAddr = some (.entryRec { entry0 with
          total_attributions := 1, pending_rewards := 5000000 }) ∧
    getAcc (outChain chainA (process_record_attribution chainA wOther true
        Addr.protocolPda kEntryAddr (Addr.attributionPda 7 kEntryAddr) 7 0
        0)) kEntryAddr = some (.entryRec { entry0 with
          total_attributions := 1, pending_rewards := 0 }) :=
  ⟨(C1_record_adds_floor_reward chainA wOther true Addr.protocolPda
      kEntryAddr (Addr.attributionPda 7 kEntryAddr) 7 100 0 entry0 reg0
      (by decide) (by decide)).1 (by decide),
   (C1_record_adds_floor_reward chainA wOther true Addr.protocolPda
      kEntryAddr (Addr.attributionPda 7 kEntryAddr) 7 100 0 entry0 reg0
      (by decide) (by decide)).2 (by decide),
   by decide, by decide, by decide⟩

/-- C3: starting from a freshly created entry (both counters zero), after a
sequence of successful RecordAttribution invocations with scores r1..rn
against it, the entry's pending rewards equal the sum of
floor(reward_per_attribution * ri / 10) and its attribution counter equals
n. -/
theorem C3_sequence_accumulates_rewards (ins : List RecordIn) (st : Chain)
    (kA : Addr) (e : KnowledgeEntry) (p : Protocol)
    (hk : getAcc st kA = some (.entryRec e))
    (h0 : e.total_attributions = 0) (h1 : e.pending_rewards = 0)
    (hp : getAcc st Addr.protocolPda = some (.protocolRec p))
    (hins : ∀ i ∈ ins, i.knowledgeAddr = kA ∧
      i.protocolAddr = Addr.protocolPda)
    (hok : isOk (runRecords st ins) = true) :
    getAcc (outChain st (runRecords st ins)) kA = some (.entryRec { e with
      total_attributions := ins.length,
      pending_rewards := (ins.map (fun i =>
        p.reward_per_attribution * i.relevance_score / 10)).sum }) := by
  cases hrun : runRecords st ins with
  | error e0 => rw [hrun] at hok; simp [isOk] at hok
  | ok stF =>
    obtain ⟨p', hfP, hfR, hfK⟩ :=
      runRecords_accumulate ins st kA e p hk hp hins stF hrun
    simp only [outChain]
    rw [hfK, h0, h1]
    simp

/-- C3 witness: two successful attributions with scores 100 and 50 against a
fresh entry leave pending rewards 15,000,000 and attribution count 2. -/
theorem C3_sequence_accumulates_rewards_witness :
    getAcc (outChain chainA (runRecords chainA
      [⟨wOther, true, Addr.protocolPda, kEntryAddr,
          Addr.attributionPda 7 kEntryAddr, 7, 100, 0⟩,
        ⟨wOther, true, Addr.protocolPda, kEntryAddr,
          Addr.attributionPda 8 kEntryAddr, 8, 50, 0⟩])) kEntryAddr =
      some (.entryRec
        { entry0 with total_attributions := 2, pending_rewards := 15000000 }) := by
  have h := C3_sequence_accumulates_rewards
    [⟨wOther, true, Addr.protocolPda, kEntryAddr,
        Addr.attributionPda 7 kEntryAddr, 7, 100, 0⟩,
      ⟨wOther, true, Addr.protocolPda, kEntryAddr,
        Addr.attributionPda 8 kEntryAddr, 8, 50, 0⟩]
    chainA kEntryAddr entry0 reg0 (by decide) (by decide) (by decide)
    (by decide) (by decide) (by decide)
  simpa using h

/-- C4 counterexample: in the framework implementation, a ClaimRewards by a
non-owner on an entry with zero balance fails with NoRewardsToClaim, not
NotKnowledgeOwner, because the balance check runs first
(`src/solpg_lib.rs` lines 89-93). -/
theorem C4_counterexample :
    solsage.claim_rewards chainA wOther true kEntryAddr =
      .error .noRewardsToClaim ∧
    Err.noRewardsToClaim ≠ Err.notKnowledgeOwner := ⟨rfl, by decide⟩

/-- C4 amended: a ClaimRewards whose signing caller differs from the entry's
staker always fails; the low-level implementation reports NotKnowledgeOwner
regardless of the balance, while the framework implementation reports
NotKnowledgeOwner whenever the pending balance is nonzero (and
NoRewardsToClaim when it is zero). -/
theorem C4_nonowner_claim_fails (st : Chain) (s : Addr) (kA : Addr)
    (e : KnowledgeEntry)
    (hk : getAcc st kA = some (.entryRec e)) (hne : e.staker ≠ s) :
    process_claim_rewards st s true kA = .error .notKnowledgeOwner ∧
    (e.pending_rewards ≠ 0 →
      solsage.claim_rewards st s true kA = .error .notKnowledgeOwner) ∧
    isOk (solsage.claim_rewards st s true kA) = false := by
  refine ⟨?_, ?_, ?_⟩
  · unfold process_claim_rewards
    rw [if_neg (by simp), hk]
    simp only []
    rw [if_pos hne]
  · intro hz
    unfold solsage.claim_rewards
    rw [hk]
    simp only []
    rw [if_neg (by simp), if_neg hz, if_pos hne]
  · unfold solsage.claim_rewards
    rw [hk]
    simp only []
    by_cases hz : e.pending_rewards = 0
    · rw [if_neg (by simp), if_pos hz]; simp [isOk]
    · rw [if_neg (by simp), if_neg hz, if_pos hne]; simp [isOk]

/-- C4 witness: on a concrete entry with a nonzero balance, a claim by an
unrelated signer fails with NotKnowledgeOwner in both implementations. -/
theorem C4_nonowner_claim_fails_witness :
    process_claim_rewards chainB wOther true kEntryAddr =
      .error .notKnowledgeOwner ∧
    solsage.claim_rewards chainB wOther true kEntryAddr =
      .error .notKnowledgeOwner :=
  ⟨(C4_nonowner_claim_fails chainB wOther kEntryAddr entry5 (by decide)
      (by decide)).1,
   (C4_nonowner_claim_fails chainB wOther kEntryAddr entry5 (by decide)
      (by decide)).2.1 (by decide)⟩

/-- C5: a ClaimRewards by the correct staker on an entry with nonzero
pending rewards succeeds in both implementations, reports a claim amount
equal to the prior pending rewards and zeroes them; an immediately repeated
claim fails with NoRewardsToClaim in both implementations and, being a
failure, commits no state change. -/
theorem C5_claim_then_reclaim (st : Chain) (kA : Addr) (e : KnowledgeEntry)
    (hk : getAcc st kA = some (.entryRec e))
    (hz : e.pending_rewards ≠ 0) :
    process_claim_rewards st e.staker true kA =
      .ok (setAcc st kA (.entryRec { e with pending_rewards := 0 }),
        e.pending_rewards) ∧
    solsage.claim_rewards st e.staker true kA =
      .ok (setAcc st kA (.entryRec { e with pending_rewards := 0 }),
        e.pending_rewards) ∧
    process_claim_rewards
        (setAcc st kA (.entryRec { e with pending_rewards := 0 }))
        e.staker true kA = .error .noRewardsToClaim ∧
    solsage.claim_rewards
        (setAcc st kA (.entryRec { e with pending_rewards := 0 }))
        e.staker true kA = .error .noRewardsToClaim ∧
    step (setAcc st kA (.entryRec { e with pending_rewards := 0 }))
        (.claimOp e.staker true kA) =
      setAcc st kA (.entryRec { e with pending_rewards := 0 }) := by
  have hsecond : process_claim_rewards
      (setAcc st kA (.entryRec { e with pending_rewards := 0 }))
      e.staker true kA = .error .noRewardsToClaim := by
    unfold process_claim_rewards
    rw [getAcc_setAcc_same]
    simp
  refine ⟨process_claim_ok_intro st kA e hk hz,
    solsage_claim_ok_intro st kA e hk hz, hsecond, ?_, ?_⟩
  · unfold solsage.claim_rewards
    rw [getAcc_setAcc_same]
    simp
  · apply step_of_err
    simp only [applyOp]
    rw [hsecond]
    rfl

/-- C5 witness: claiming 5,000,000 pending rewards as the staker succeeds
with reported amount 5,000,000 and zeroes the balance; the immediate second
claim fails with NoRewardsToClaim. -/
theorem C5_claim_then_reclaim_witness :
    process_claim_rewards chainB wStak true kEntryAddr =
      .ok (setAcc chainB kEntryAddr
        (.entryRec { entry5 with pending_rewards := 0 }), 5000000) ∧
    solsage.claim_rewards chainB wStak true kEntryAddr =
      .ok (setAcc chainB kEntryAddr
        (.entryRec { entry5 with pending_rewards := 0 }), 5000000) ∧
    process_claim_rewards (setAcc chainB kEntryAddr
        (.entryRec { entry5 with pending_rewards := 0 })) wStak true
        kEntryAddr = .error .noRewardsToClaim ∧
    solsage.claim_rewards (setAcc chainB kEntryAddr
        (.entryRec { entry5 with pending_rewards := 0 })) wStak true
        kEntryAddr = .error .noRewardsToClaim := by
  have h := C5_claim_then_reclaim chainB kEntryAddr entry5 (by decide)
    (by decide)
  exact ⟨h.1, h.2.1, h.2.2.1, h.2.2.2.1⟩

/-- Chain whose knowledge entry sits at a plain wallet address (not the
entry's derived address). -/
def chainC : Chain := [(Addr.protocolPda, .protocolRec reg0),
  (Addr.wallet 7, .entryRec entry0)]

/-- Chain whose registry record sits at a wallet address instead of the
registry PDA (not reachable by the program itself, but accepted as an input
state). -/
def chainD : Chain := [(Addr.wallet 9, .protocolRec reg0),
  (kEntryAddr, .entryRec entry0)]

/-- C7 counterexample: StakeKnowledge validation is not applied in the order
signature, title, category, derived address by the framework
implementation: Anchor checks the account constraints before the handler
body, so a signing staker with a 101-byte title and a mismatched entry
address gets the seeds-constraint error, not TitleTooLong. -/
theorem C7_counterexample :
    solsage.stake_knowledge chainA wStak true Addr.protocolPda
        (Addr.wallet 9) 6 (String.mk (List.replicate 101 'a')) "c" 0 =
      .error .constraintSeeds ∧
    Err.constraintSeeds ≠ Err.titleTooLong := ⟨rfl, by decide⟩

/-- C7 amended: the low-level implementation applies StakeKnowledge
validation in the order signature, title length, category length,
derived-address match (each conjunct fixes the earlier checks and shows the
corresponding error); the framework implementation checks the account
constraints first but still rejects a 101-byte title from a signing staker
with TitleTooLong when the accounts are well formed; a failed StakeKnowledge
commits no state change, so no record is created and no counter changes. -/
theorem C7_stake_validation_order (st : Chain) (s : Addr) (pA kA : Addr)
    (ch : Hash32) (t c : String) (now : Int) :
    (∀ sg, sg = false →
      process_stake_knowledge st s sg pA kA ch t c now =
        .error .missingSignature) ∧
    (100 < t.utf8ByteSize →
      process_stake_knowledge st s true pA kA ch t c now =
        .error .titleTooLong) ∧
    (t.utf8ByteSize ≤ 100 → 50 < c.utf8ByteSize →
      process_stake_knowledge st s true pA kA ch t c now =
        .error .categoryTooLong) ∧
    (t.utf8ByteSize ≤ 100 → c.utf8ByteSize ≤ 50 →
      kA ≠ Addr.knowledgePda s ch →
      process_stake_knowledge st s true pA kA ch t c now =
        .error .invalidPda) ∧
    (∀ p, getAcc st pA = some (.protocolRec p) → pA = Addr.protocolPda →
      kA = Addr.knowledgePda s ch → getAcc st kA = none →
      100 < t.utf8ByteSize →
      solsage.stake_knowledge st s true pA kA ch t c now =
        .error .titleTooLong) ∧
    (∀ sg e0, process_stake_knowledge st s sg pA kA ch t c now = .error e0 →
      step st (.stakeOp s sg pA kA ch t c now) = st) := by
  refine ⟨?_, ?_, ?_, ?_, ?_, ?_⟩
  · intro sg h
    unfold process_stake_knowledge
    rw [if_pos h]
  · intro ht
    unfold process_stake_knowledge
    rw [if_neg (by simp), if_pos ht]
  · intro ht hc
    unfold process_stake_knowledge
    rw [if_neg (by simp), if_neg (Nat.not_lt.mpr ht), if_pos hc]
  · intro ht hc hne
    unfold process_stake_knowledge
    rw [if_neg (by simp), if_neg (Nat.not_lt.mpr ht),
      if_neg (Nat.not_lt.mpr hc), if_pos hne]
  · intro p hp hpp hkk hnone ht
    subst hpp
    subst hkk
    unfold solsage.stake_knowledge
    rw [hp]
    simp only []
    rw [if_neg (by simp), if_neg (not_not_intro rfl),
      if_neg (not_not_intro rfl), hnone]
    simp only []
    rw [if_pos ht]
  · intro sg e0 h
    apply step_of_err
    simp only [applyOp]
    rw [h]

/-- C7 witness: a 101-byte title from a signing staker with well-formed
accounts fails with TitleTooLong in both implementations. -/
theorem C7_stake_validation_order_witness :
    process_stake_knowledge chainA wStak true Addr.protocolPda
        (Addr.knowledgePda wStak 6) 6 (String.mk (List.replicate 101 'a'))
        "c" 0 = .error .titleTooLong ∧
    solsage.stake_knowledge chainA wStak true Addr.protocolPda
        (Addr.knowledgePda wStak 6) 6 (String.mk (List.replicate 101 'a'))
        "c" 0 = .error .titleTooLong :=
  ⟨(C7_stake_validation_order chainA wStak Addr.protocolPda
      (Addr.knowledgePda wStak 6) 6 (String.mk (List.replicate 101 'a')) "c"
      0).2.1 (by decide),
   (C7_stake_validation_order chainA wStak Addr.protocolPda
      (Addr.knowledgePda wStak 6) 6 (String.mk (List.replicate 101 'a')) "c"
      0).2.2.2.2.1 reg0 (by decide) rfl rfl (by decide) (by decide)⟩

/-- C8: a successful ClaimRewards (in either implementation) replaces the
entry at the supplied address with the same entry with pending rewards
zeroed — so its staker, content hash, title, category, creation time,
attribution counter, activity flag and bump are unchanged — and leaves the
record at every other address, including the registry and all attribution
records, untouched. -/
theorem C8_claim_frame (st : Chain) (s : Addr) (sg : Bool) (kA : Addr)
    (e : KnowledgeEntry)
    (hk : getAcc st kA = some (.entryRec e)) :
    (isOk (process_claim_rewards st s sg kA) = true →
      (claimOut st (process_claim_rewards st s sg kA)).1 =
        setAcc st kA (.entryRec { e with pending_rewards := 0 }) ∧
      getAcc (claimOut st (process_claim_rewards st s sg kA)).1 kA =
        some (.entryRec { e with pending_rewards := 0 }) ∧
      ∀ a, a ≠ kA →
        getAcc (claimOut st (process_claim_rewards st s sg kA)).1 a =
          getAcc st a) ∧
    (isOk (solsage.claim_rewards st s sg kA) = true →
      (claimOut st (solsage.claim_rewards st s sg kA)).1 =
        setAcc st kA (.entryRec { e with pending_rewards := 0 }) ∧
      getAcc (claimOut st (solsage.claim_rewards st s sg kA)).1 kA =
        some (.entryRec { e with pending_rewards := 0 }) ∧
      ∀ a, a ≠ kA →
        getAcc (claimOut st (solsage.claim_rewards st s sg kA)).1 a =
          getAcc st a) := by
  constructor
  · intro hok
    cases hrun : process_claim_rewards st s sg kA with
    | error e0 => rw [hrun] at hok; simp [isOk] at hok
    | ok res =>
      obtain ⟨hsg, e1, hk1, hs1, hz1, hres⟩ := process_claim_ok_elim hrun
      rw [hk] at hk1
      simp only [Option.some.injEq, Record.entryRec.injEq] at hk1
      subst hk1
      subst hres
      refine ⟨?_, ?_, fun a ha => ?_⟩
      · simp [claimOut]
      · simp only [claimOut]
        exact getAcc_setAcc_same st kA _
      · simp only [claimOut]
        exact getAcc_setAcc_ne st _ ha
  · intro hok
    cases hrun : solsage.claim_rewards st s sg kA with
    | error e0 => rw [hrun] at hok; simp [isOk] at hok
    | ok res =>
      obtain ⟨hsg, e1, hk1, hs1, hz1, hres⟩ := solsage_claim_ok_elim hrun
      rw [hk] at hk1
      simp only [Option.some.injEq, Record.entryRec.injEq] at hk1
      subst hk1
      subst hres
      refine ⟨?_, ?_, fun a ha => ?_⟩
      · simp [claimOut]
      · simp only [claimOut]
        exact getAcc_setAcc_same st kA _
      · simp only [claimOut]
        exact getAcc_setAcc_ne st _ ha

/-- C8 witness: a concrete successful claim leaves the registry record
untouched and only zeroes the entry's pending rewards. -/
theorem C8_claim_frame_witness :
    getAcc (claimOut chainB (process_claim_rewards chainB wStak true
      kEntryAddr)).1 Addr.protocolPda = getAcc chainB Addr.protocolPda ∧
    getAcc (claimOut chainB (process_claim_rewards chainB wStak true
      kEntryAddr)).1 kEntryAddr =
      some (.entryRec { entry5 with pending_rewards := 0 }) ∧
    getAcc (claimOut chainB (solsage.claim_rewards chainB wStak true
      kEntryAddr)).1 Addr.protocolPda = getAcc chainB Addr.protocolPda :=
  ⟨((C8_claim_frame chainB wStak true kEntryAddr entry5 (by decide)).1
      (by decide)).2.2 Addr.protocolPda (by decide),
   ((C8_claim_frame chainB wStak true kEntryAddr entry5 (by decide)).1
      (by decide)).2.1,
   ((C8_claim_frame chainB wStak true kEntryAddr entry5 (by decide)).2
      (by decide)).2.2 Addr.protocolPda (by decide)⟩

/-- C9 counterexample: the attribution address is not the only
derived-address verification in the framework implementation — it also
verifies the registry's derived address.  With the registry record stored at
wallet 9 and supplied from there (everything else valid), the low-level
RecordAttribution succeeds while the framework one fails with the
seeds-constraint error. -/
theorem C9_counterexample :
    isOk (process_record_attribution chainD wOther true (Addr.wallet 9)
      kEntryAddr (Addr.attributionPda 7 kEntryAddr) 7 100 0) = true ∧
    solsage.record_attribution chainD wOther true (Addr.wallet 9) kEntryAddr
      (Addr.attributionPda 7 kEntryAddr) 7 100 0 =
      .error .constraintSeeds := ⟨by decide, rfl⟩

/-- C9 amended: RecordAttribution never checks the supplied knowledge-entry
address against a derivation from (staker, content hash): in both
implementations any caller-supplied address holding an entry record is
accepted and mutated — the trust asymmetry the spec flags only for
ClaimRewards; the attribution address check is the only derived-address
verification in the low-level implementation, while the framework
implementation additionally verifies the registry's derived address. -/
theorem C9_entry_address_unverified (st : Chain) (py : Addr) (kA : Addr)
    (q : Hash32) (r : Nat) (now : Int) (e : KnowledgeEntry) (p : Protocol)
    (hr : r ≤ 100)
    (hattr : getAcc st (Addr.attributionPda q kA) = none)
    (hk : getAcc st kA = some (.entryRec e))
    (hb1 : e.total_attributions + 1 < u64size)
    (hb2 : p.reward_per_attribution * r < u64size)
    (hb3 : e.pending_rewards + p.reward_per_attribution * r / 10 < u64size)
    (hb4 : p.total_attributions + 1 < u64size) :
    (∀ pA, getAcc st pA = some (.protocolRec p) →
      process_record_attribution st py true pA kA
          (Addr.attributionPda q kA) q r now =
        .ok (setAcc
          (setAcc
            (setAcc st kA
              (.entryRec { e with
                total_attributions := e.total_attributions + 1,
                pending_rewards :=
                  e.pending_rewards + p.reward_per_attribution * r / 10 }))
            (Addr.attributionPda q kA)
            (.attributionRec ⟨true, kA, q, r, now, false, pdaBump⟩)) pA
          (.protocolRec
            { p with total_attributions := p.total_attributions + 1 }))) ∧
    (getAcc st Addr.protocolPda = some (.protocolRec p) →
      solsage.record_attribution st py true Addr.protocolPda kA
          (Addr.attributionPda q kA) q r now =
        .ok (setAcc
          (setAcc
            (setAcc st kA
              (.entryRec { e with
                total_attributions := e.total_attributions + 1,
                pending_rewards :=
                  e.pending_rewards + p.reward_per_attribution * r / 10 }))
            (Addr.attributionPda q kA)
            (.attributionRec ⟨true, kA, q, r, now, false, pdaBump⟩))
          Addr.protocolPda
          (.protocolRec
            { p with total_attributions := p.total_attributions + 1 }))) := by
  constructor
  · intro pA hp
    exact process_record_ok_intro st py pA kA q r now e p hr hattr hk hp hb1
      hb2 hb3 hb4
  · intro hp
    exact solsage_record_ok_intro st py kA q r now e p hr hattr hk hp hb1
      hb2 hb3 hb4

/-- C9 witness: an entry stored at the plain wallet address 7 — which is no
derivation of its (staker, content hash) — is accepted and mutated by both
implementations. -/
theorem C9_entry_address_unverified_witness :
    process_record_attribution chainC wOther true Addr.protocolPda
        (Addr.wallet 7) (Addr.attributionPda 9 (Addr.wallet 7)) 9 100 0 =
      .ok (setAcc
        (setAcc
          (setAcc chainC (Addr.wallet 7)
            (.entryRec { entry0 with
              total_attributions := entry0.total_attributions + 1,
              pending_rewards := entry0.pending_rewards +
                reg0.reward_per_attribution * 100 / 10 }))
          (Addr.attributionPda 9 (Addr.wallet 7))
          (.attributionRec ⟨true, Addr.wallet 7, 9, 100, 0, false,
            pdaBump⟩)) Addr.protocolPda
        (.protocolRec
          { reg0 with total_attributions := reg0.total_attributions + 1 })) ∧
    solsage.record_attribution chainC wOther true Addr.protocolPda
        (Addr.wallet 7) (Addr.attributionPda 9 (Addr.wallet 7)) 9 100 0 =
      .ok (setAcc
        (setAcc
          (setAcc chainC (Addr.wallet 7)
            (.entryRec { entry0 with
              total_attributions := entry0.total_attributions + 1,
              pending_rewards := entry0.pending_rewards +
                reg0.reward_per_attribution * 100 / 10 }))
          (Addr.attributionPda 9 (Addr.wallet 7))
          (.attributionRec ⟨true, Addr.wallet 7, 9, 100, 0, false,
            pdaBump⟩)) Addr.protocolPda
        (.protocolRec
          { reg0 with total_attributions := reg0.total_attributions + 1 })) :=
  ⟨(C9_entry_address_unverified chainC wOther (Addr.wallet 7) 9 100 0 entry0
      reg0 (by decide) (by decide) (by decide) (by decide) (by decide)
      (by decide) (by decide)).1 Addr.protocolPda (by decide),
   (C9_entry_address_unverified chainC wOther (Addr.wallet 7) 9 100 0 entry0
      reg0 (by decide) (by decide) (by decide) (by decide) (by decide)
      (by decide) (by decide)).2 (by decide)⟩

/-- C10: Initialize fixes the reward rate at 1,000,000; with every accepted
relevance score r ≤ 100 the product reward_per_attribution * r is at most
100,000,000, so the checked multiplication never overflows u64 and a
successful RecordAttribution computes exactly floor(1,000,000 * r / 10);
checked u64 addition is exact whenever the sum stays below 2^64. -/
theorem C10_reward_arithmetic_exact :
    (∀ (st : Chain) (a pA : Addr) (st' : Chain),
      process_init st a true pA = .ok st' →
      getAcc st' pA = some (.protocolRec ⟨true, a, 0, 0, 1000000,
        pdaBump⟩)) ∧
    (∀ r : Nat, r ≤ 100 →
      1000000 * r ≤ 100000000 ∧ mulU64 1000000 r = some (1000000 * r)) ∧
    (∀ a b : Nat, a + b < u64size → addU64 a b = some (a + b)) ∧
    (∀ (st : Chain) (py : Addr) (sg : Bool) (pA kA aA : Addr) (q : Hash32)
      (r : Nat) (now : Int) (st' : Chain) (e : KnowledgeEntry)
      (p : Protocol),
      process_record_attribution st py sg pA kA aA q r now = .ok st' →
      getAcc st kA = some (.entryRec e) →
      getAcc st pA = some (.protocolRec p) →
      p.reward_per_attribution = 1000000 →
      p.reward_per_attribution * r ≤ 100000000 ∧
      getAcc st' kA = some (.entryRec { e with
        total_attributions := e.total_attributions + 1,
        pending_rewards := e.pending_rewards + 1000000 * r / 10 })) := by
  have hu : u64size = 18446744073709551616 := by norm_num [u64size]
  refine ⟨?_, ?_, ?_, ?_⟩
  · intro st a pA st' h
    obtain ⟨hsg, hpda, hnone, hst'⟩ := process_init_ok_elim h
    rw [hst', getAcc_setAcc_same]
  · intro r hr
    refine ⟨by omega, mulU64_some (by omega)⟩
  · intro a b h
    exact addU64_some h
  · intro st py sg pA kA aA q r now st' e p hrun hk hp hrpa
    obtain ⟨hsg, hr, ha, hnone, e1, p1, hk1, hp1, hpk, hpa, hka, hb1, hb2,
      hb3, hb4, hst'⟩ := process_record_ok_elim hrun
    rw [hk] at hk1
    rw [hp] at hp1
    simp only [Option.some.injEq, Record.entryRec.injEq,
      Record.protocolRec.injEq] at hk1 hp1
    subst hk1
    subst hp1
    constructor
    · rw [hrpa]; omega
    · rw [hst', getAcc_setAcc_ne _ _ (Ne.symm hpk),
        getAcc_setAcc_ne _ _ hka, getAcc_setAcc_same, hrpa]

/-- C10 witness: the checked product at the maximal score and a checked
addition below 2^64 are exact, and a concrete Initialize writes the rate
1,000,000. -/
theorem C10_reward_arithmetic_exact_witness :
    mulU64 1000000 100 = some (1000000 * 100) ∧
    1000000 * 100 ≤ 100000000 ∧
    addU64 5000000 5000000 = some (5000000 + 5000000) ∧
    getAcc [(Addr.protocolPda,
        Record.protocolRec ⟨true, wAuth, 0, 0, 1000000, pdaBump⟩)]
      Addr.protocolPda =
      some (.protocolRec ⟨true, wAuth, 0, 0, 1000000, pdaBump⟩) :=
  ⟨(C10_reward_arithmetic_exact.2.1 100 (by decide)).2,
   (C10_reward_arithmetic_exact.2.1 100 (by decide)).1,
   C10_reward_arithmetic_exact.2.2.1 5000000 5000000 (by decide),
   C10_reward_arithmetic_exact.1 [] wAuth Addr.protocolPda
     [(Addr.protocolPda,
        Record.protocolRec ⟨true, wAuth, 0, 0, 1000000, pdaBump⟩)]
     rfl⟩

theorem isOk_eq_of_transfer {α : Type} {x y : Except Err α}
    (h1 : ∀ v, x = .ok v → y = .ok v) (h2 : ∀ v, y = .ok v → x = .ok v) :
    isOk y = isOk x := by
  cases hx : x with
  | ok v => rw [h1 v hx]
  | error e0 =>
    cases hy : y with
    | ok v =>
      have := (h2 v hy).symm.trans hx
      simp at this
    | error e1 => rfl

/-- C2 counterexample: the two implementations do not report corresponding
errors, and do not even succeed on the same inputs on arbitrary states: a
ClaimRewards by a non-owner on a zero-balance entry fails with
NotKnowledgeOwner in the low-level implementation but NoRewardsToClaim in
the framework one (the two check in opposite order); and on a state whose
registry record sits away from its derived address, a StakeKnowledge
supplying that address succeeds in the low-level implementation (which
never derives the registry address) but fails in the framework one. -/
theorem C2_counterexample :
    process_claim_rewards chainA wOther true kEntryAddr =
      .error .notKnowledgeOwner ∧
    solsage.claim_rewards chainA wOther true kEntryAddr =
      .error .noRewardsToClaim ∧
    Err.notKnowledgeOwner ≠ Err.noRewardsToClaim ∧
    isOk (process_stake_knowledge chainD wStak true (Addr.wallet 9)
      (Addr.knowledgePda wStak 6) 6 "t" "c" 0) = true ∧
    isOk (solsage.stake_knowledge chainD wStak true (Addr.wallet 9)
      (Addr.knowledgePda wStak 6) 6 "t" "c" 0) = false :=
  ⟨rfl, rfl, by decide, by decide, by decide⟩

/-- C2 amended: on every state whose registry record sits only at its
derived address (true of all reachable states), the two implementations
perform the identical state transition for every operation kind and every
input: they succeed on exactly the same inputs, and on success produce the
identical resulting records (and, for ClaimRewards, the identical claim
amount); the errors reported on a common failure may differ because the
validation order differs. -/
theorem C2_state_transition_equiv (st : Chain) (hreg : regAtPda st) :
    (∀ (a : Addr) (sg : Bool) (pA : Addr),
      isOk (solsage.init st a sg pA) = isOk (process_init st a sg pA) ∧
      ∀ st', process_init st a sg pA = .ok st' →
        solsage.init st a sg pA = .ok st') ∧
    (∀ (s : Addr) (sg : Bool) (pA kA : Addr) (ch : Hash32) (t c : String)
      (now : Int),
      isOk (solsage.stake_knowledge st s sg pA kA ch t c now) =
        isOk (process_stake_knowledge st s sg pA kA ch t c now) ∧
      ∀ st', process_stake_knowledge st s sg pA kA ch t c now = .ok st' →
        solsage.stake_knowledge st s sg pA kA ch t c now = .ok st') ∧
    (∀ (py : Addr) (sg : Bool) (pA kA aA : Addr) (q : Hash32) (r : Nat)
      (now : Int),
      isOk (solsage.record_attribution st py sg pA kA aA q r now) =
        isOk (process_record_attribution st py sg pA kA aA q r now) ∧
      ∀ st', process_record_attribution st py sg pA kA aA q r now =
          .ok st' →
        solsage.record_attribution st py sg pA kA aA q r now = .ok st') ∧
    (∀ (s : Addr) (sg : Bool) (kA : Addr),
      isOk (solsage.claim_rewards st s sg kA) =
        isOk (process_claim_rewards st s sg kA) ∧
      ∀ res, process_claim_rewards st s sg kA = .ok res →
        solsage.claim_rewards st s sg kA = .ok res) := by
  refine ⟨?_, ?_, ?_, ?_⟩
  · intro a sg pA
    have h1 : ∀ st', process_init st a sg pA = .ok st' →
        solsage.init st a sg pA = .ok st' := by
      intro st' h
      obtain ⟨hsg, hp, hn, hst'⟩ := process_init_ok_elim h
      subst hsg
      rw [hst']
      exact solsage_init_ok_intro st a pA hp hn
    have h2 : ∀ st', solsage.init st a sg pA = .ok st' →
        process_init st a sg pA = .ok st' := by
      intro st' h
      obtain ⟨hsg, hp, hn, hst'⟩ := solsage_init_ok_elim h
      subst hsg
      rw [hst']
      exact process_init_ok_intro st a pA hp hn
    exact ⟨isOk_eq_of_transfer h1 h2, h1⟩
  · intro s sg pA kA ch t c now
    have h1 : ∀ st', process_stake_knowledge st s sg pA kA ch t c now =
        .ok st' → solsage.stake_knowledge st s sg pA kA ch t c now =
        .ok st' := by
      intro st' h
      obtain ⟨hsg, ht, hc, hkk, hn, p, hp, hpk, hb, hst'⟩ :=
        process_stake_ok_elim h
      subst hsg
      have hpda : pA = Addr.protocolPda := hreg pA p hp
      subst hpda
      subst hkk
      rw [hst']
      exact solsage_stake_ok_intro st s ch t c now p ht hc hn hp hb
    have h2 : ∀ st', solsage.stake_knowledge st s sg pA kA ch t c now =
        .ok st' → process_stake_knowledge st s sg pA kA ch t c now =
        .ok st' := by
      intro st' h
      obtain ⟨hsg, hpda, hkk, hn, ht, hc, p, hp, hb, hst'⟩ :=
        solsage_stake_ok_elim h
      subst hsg
      subst hpda
      subst hkk
      rw [hst']
      exact process_stake_ok_intro st s Addr.protocolPda ch t c now p ht hc
        hn hp hb
    exact ⟨isOk_eq_of_transfer h1 h2, h1⟩
  · intro py sg pA kA aA q r now
    have h1 : ∀ st', process_record_attribution st py sg pA kA aA q r now =
        .ok st' → solsage.record_attribution st py sg pA kA aA q r now =
        .ok st' := by
      intro st' h
      obtain ⟨hsg, hr, ha, hn, e, p, hk, hp, hpk, hpa, hka, hb1, hb2, hb3,
        hb4, hst'⟩ := process_record_ok_elim h
      subst hsg
      have hpda : pA = Addr.protocolPda := hreg pA p hp
      subst hpda
      subst ha
      rw [hst']
      exact solsage_record_ok_intro st py kA q r now e p hr hn hk hp hb1 hb2
        hb3 hb4
    have h2 : ∀ st', solsage.record_attribution st py sg pA kA aA q r now =
        .ok st' → process_record_attribution st py sg pA kA aA q r now =
        .ok st' := by
      intro st' h
      obtain ⟨hsg, hpda, hr, ha, hn, e, p, hk, hp, hpk, hpa, hka, hb1, hb2,
        hb3, hb4, hst'⟩ := solsage_record_ok_elim h
      subst hsg
      subst hpda
      subst ha
      rw [hst']
      exact process_record_ok_intro st py Addr.protocolPda kA q r now e p hr
        hn hk hp hb1 hb2 hb3 hb4
    exact ⟨isOk_eq_of_transfer h1 h2, h1⟩
  · intro s sg kA
    have h1 : ∀ res, process_claim_rewards st s sg kA = .ok res →
        solsage.claim_rewards st s sg kA = .ok res := by
      intro res h
      obtain ⟨hsg, e, hk, hs, hz, hres⟩ := process_claim_ok_elim h
      subst hsg
      subst hres
      rw [← hs]
      exact solsage_claim_ok_intro st kA e hk hz
    have h2 : ∀ res, solsage.claim_rewards st s sg kA = .ok res →
        process_claim_rewards st s sg kA = .ok res := by
      intro res h
      obtain ⟨hsg, e, hk, hs, hz, hres⟩ := solsage_claim_ok_elim h
      subst hsg
      subst hres
      rw [← hs]
      exact process_claim_ok_intro st kA e hk hz
    exact ⟨isOk_eq_of_transfer h1 h2, h1⟩

/-- C2 witness: on a concrete reachable-shaped state the two
implementations agree on the success of a ClaimRewards and of a
StakeKnowledge. -/
theorem C2_state_transition_equiv_witness :
    isOk (solsage.claim_rewards chainB wStak true kEntryAddr) =
      isOk (process_claim_rewards chainB wStak true kEntryAddr) ∧
    isOk (solsage.stake_knowledge chainB wStak true Addr.protocolPda
        (Addr.knowledgePda wStak 6) 6 "t" "c" 0) =
      isOk (process_stake_knowledge chainB wStak true Addr.protocolPda
        (Addr.knowledgePda wStak 6) 6 "t" "c" 0) := by
  have hreg : regAtPda chainB := by
    intro a p h
    by_cases h1 : a = Addr.protocolPda
    · exact h1
    · by_cases h2 : a = kEntryAddr
      · subst h2
        simp [getAcc, chainB, kEntryAddr, wStak] at h
      · simp [getAcc, chainB, h1, h2] at h
  exact ⟨((C2_state_transition_equiv chainB hreg).2.2.2 wStak true
      kEntryAddr).1,
    ((C2_state_transition_equiv chainB hreg).2.1 wStak true Addr.protocolPda
      (Addr.knowledgePda wStak 6) 6 "t" "c" 0).1⟩

/-- A concrete run for the counter invariant: create the registry, stake one
entry, record one attribution, claim, and fail a duplicate stake. -/
def opsW : List Op := [
  .initOp wAuth true Addr.protocolPda,
  .stakeOp wStak true Addr.protocolPda (Addr.knowledgePda wStak 5) 5 "t" "c"
    0,
  .recordOp wOther true Addr.protocolPda (Addr.knowledgePda wStak 5)
    (Addr.attributionPda 7 (Addr.knowledgePda wStak 5)) 7 100 0,
  .claimOp wStak true (Addr.knowledgePda wStak 5),
  .stakeOp wStak true Addr.protocolPda (Addr.knowledgePda wStak 5) 5 "t" "c"
    0]

/-- C6: starting from the empty chain, after any sequence of invocations the
registry's total_knowledge_entries equals the number of StakeKnowledge
invocations that succeeded and total_attributions equals the number of
RecordAttribution invocations that succeeded (each success adds exactly one,
Initialize creates the counters at zero, ClaimRewards never touches them);
and every failed invocation commits no state change at all. -/
theorem C6_registry_counters_track_successes :
    (∀ (ops : List Op) (p : Protocol),
      getAcc (runOps [] ops) Addr.protocolPda = some (.protocolRec p) →
      p.total_knowledge_entries = okStakes [] ops ∧
      p.total_attributions = okRecords [] ops) ∧
    (∀ (st : Chain) (o : Op), isOk (applyOp st o) = false →
      step st o = st) := by
  constructor
  · intro ops p hp
    have hbase := runOps_inv ops []
      (fun a p0 h => by simp [getAcc] at h)
      (fun r h => by simp [getAcc] at h)
      0 0 ⟨fun p0 h => by simp [getAcc] at h, fun _ => ⟨rfl, rfl⟩⟩
    have h := hbase.2.1 p hp
    exact ⟨by omega, by omega⟩
  · intro st o hok
    cases h : applyOp st o with
    | ok st' => rw [h] at hok; simp [isOk] at hok
    | error e0 => exact step_of_err h

/-- C6 witness: after initialize, one successful stake, one successful
attribution, a claim and one failed duplicate stake, the registry counters
stand at (1, 1), matching the success counts. -/
theorem C6_registry_counters_track_successes_witness :
    getAcc (runOps [] opsW) Addr.protocolPda =
      some (.protocolRec ⟨true, wAuth, 1, 1, 1000000, pdaBump⟩) ∧
    okStakes [] opsW = 1 ∧ okRecords [] opsW = 1 :=
  ⟨by decide,
   ((C6_registry_counters_track_successes.1 opsW
      ⟨true, wAuth, 1, 1, 1000000, pdaBump⟩ (by decide)).1).symm,
   ((C6_registry_counters_track_successes.1 opsW
      ⟨true, wAuth, 1, 1, 1000000, pdaBump⟩ (by decide)).2).symm⟩

end SolSage
